import Mathlib

/-!
Verification of the Internex intercepting web proxy.

The development shallowly embeds the proxy's Go server (`internex/cmd/server`,
`internex/internal/transport`), its Node dev server (`dev-server.js`) and the
injected client runtime (`assets/app.js`, `internex.runtime.js`).  Go and
JavaScript strings are modelled as lists of bytes (`GoStr`); library functions
used by the code (`net/url`, `strings`, `encodeURIComponent`, the Web Storage
interface) are modelled at that byte level.  ASCII behaviour of the library
helpers (`strings.ToLower`, `strings.TrimSpace`, `String.prototype.trim`) is
modelled exactly; multi-byte Unicode case folding and whitespace are outside
the model (no input in this development exercises them).
-/

namespace Internex

/-- Byte-string model of a Go (or JavaScript) string. -/
abbrev GoStr := List Nat

/-- UTF-8 encoding of a single character, as a byte list. -/
def utf8Bytes (c : Char) : List Nat :=
  let n := c.toNat
  if n < 0x80 then [n]
  else if n < 0x800 then [0xC0 + n / 0x40, 0x80 + n % 0x40]
  else if n < 0x10000 then
    [0xE0 + n / 0x1000, 0x80 + (n / 0x40) % 0x40, 0x80 + n % 0x40]
  else
    [0xF0 + n / 0x40000, 0x80 + (n / 0x1000) % 0x40, 0x80 + (n / 0x40) % 0x40, 0x80 + n % 0x40]

/-- Literal helper: the byte string of a Lean string literal (UTF-8). -/
def gs (s : String) : GoStr := (s.data.map utf8Bytes).flatten

/-- ASCII lower-casing of one byte (model of the ASCII fragment of
`strings.ToLower` / `String.prototype.toLowerCase`). -/
def lowerByte (b : Nat) : Nat := if 65 ≤ b ∧ b ≤ 90 then b + 32 else b

/-- Model of `strings.ToLower` (ASCII fragment). -/
def strLower (s : GoStr) : GoStr := s.map lowerByte

/-- ASCII whitespace, the byte-level fragment shared by Go's
`strings.TrimSpace` and JavaScript's `String.prototype.trim`. -/
def isSpaceByte (b : Nat) : Bool := b = 9 || b = 10 || b = 11 || b = 12 || b = 13 || b = 32

/-- Model of `strings.TrimSpace` / `String.prototype.trim` (ASCII fragment). -/
def trimSpace (s : GoStr) : GoStr :=
  ((s.dropWhile isSpaceByte).reverse.dropWhile isSpaceByte).reverse

/-- Model of `strings.HasPrefix` / `String.prototype.startsWith`. -/
def goHasPrefix (s pre : GoStr) : Bool := pre.isPrefixOf s

/-- Model of `strings.Contains` / `String.prototype.includes`
(substring containment). -/
def containsSub (s sub : GoStr) : Bool := s.tails.any (fun t => sub.isPrefixOf t)

/-- Model of `strings.HasSuffix`. -/
def goHasSuffix (s suf : GoStr) : Bool := suf.isSuffixOf s

/-- Model of `strings.Cut s [sep]` for a one-byte separator: splits at the
first occurrence of the byte, returning (before, after, found). -/
def goCutByte (sep : Nat) : GoStr → GoStr × GoStr × Bool
  | [] => ([], [], false)
  | b :: rest =>
    if b = sep then ([], rest, true)
    else
      let r := goCutByte sep rest
      (b :: r.1, r.2.1, r.2.2)

/-- Model of `strings.Split s [sep]` for a one-byte separator
(`List.splitOn` has exactly the semantics of the Go function: empty
segments are kept, the empty string yields one empty segment). -/
def goSplitByte (sep : Nat) (s : GoStr) : List GoStr := s.splitOn sep

/-- Model of `strings.Join parts sep`. -/
def goJoin (sep : GoStr) : List GoStr → GoStr
  | [] => []
  | [p] => p
  | p :: q :: rest => p ++ sep ++ goJoin sep (q :: rest)

/-- Index of the first occurrence of a byte, or none
(model of `strings.IndexByte`). -/
def idxOfByte (sep : Nat) : GoStr → Option Nat
  | [] => none
  | b :: rest =>
    if b = sep then some 0
    else (idxOfByte sep rest).map (· + 1)

/-- Index of the last occurrence of a byte, or none
(model of `strings.LastIndexByte` / `strings.LastIndex` with a one-byte
needle). -/
def lastIdxOfByte (sep : Nat) (s : GoStr) : Option Nat :=
  (idxOfByte sep s.reverse).map (fun i => s.length - 1 - i)

/-! ### Percent escaping (`net/url`)

`url.QueryEscape` escapes every byte that is not an RFC 3986 unreserved
character, writing space as `+`; `url.QueryUnescape` inverts this and fails
on a malformed `%` sequence. -/

/-- RFC 3986 unreserved byte: ALPHA / DIGIT / `-` / `_` / `.` / `~`
(the bytes `shouldEscape` leaves alone in every `net/url` encoding mode). -/
def isUnreservedByte (b : Nat) : Bool :=
  (65 ≤ b && b ≤ 90) || (97 ≤ b && b ≤ 122) || (48 ≤ b && b ≤ 57) ||
  b = 45 || b = 95 || b = 46 || b = 126

/-- Upper-case hex digit byte of a value below 16. -/
def hexUpper (n : Nat) : Nat := if n < 10 then 48 + n else 55 + n

/-- Percent-escape of one byte: `%XX` with upper-case hex. -/
def escByte (b : Nat) : List Nat := [37, hexUpper (b / 16), hexUpper (b % 16)]

/-- Model of Go `url.QueryEscape`. -/
def queryEscape (s : GoStr) : GoStr :=
  (s.map (fun b =>
    if isUnreservedByte b then [b]
    else if b = 32 then [43]
    else escByte b)).flatten

/-- Value of a hex digit byte, or none (model of `net/url`'s `unhex` plus
its `ishex` guard). -/
def unhexByte (b : Nat) : Option Nat :=
  if 48 ≤ b ∧ b ≤ 57 then some (b - 48)
  else if 97 ≤ b ∧ b ≤ 102 then some (b - 87)
  else if 65 ≤ b ∧ b ≤ 70 then some (b - 55)
  else none

/-- Model of Go `url.QueryUnescape`: decodes `%XX` (either hex case) and
`+` as space, and fails on a `%` not followed by two hex digits. -/
def queryUnescape : GoStr → Option GoStr
  | [] => some []
  | b :: rest =>
    if b = 37 then
      match rest with
      | h1 :: h2 :: rest2 =>
        match unhexByte h1, unhexByte h2 with
        | some x, some y => (queryUnescape rest2).map (fun t => (16 * x + y) :: t)
        | _, _ => none
      | _ => none
    else if b = 43 then (queryUnescape rest).map (fun t => 32 :: t)
    else (queryUnescape rest).map (fun t => b :: t)

/-- Well-formedness of a byte string: every element is one byte. -/
def IsBytes (s : GoStr) : Prop := ∀ b ∈ s, b < 256

theorem queryUnescape_cons_other {b : Nat} (rest : GoStr) (h37 : b ≠ 37) (h43 : b ≠ 43) :
    queryUnescape (b :: rest) = (queryUnescape rest).map (fun t => b :: t) := by
  rw [queryUnescape.eq_def]
  dsimp only
  rw [if_neg h37, if_neg h43]

theorem queryUnescape_cons_plus (rest : GoStr) :
    queryUnescape (43 :: rest) = (queryUnescape rest).map (fun t => 32 :: t) := by
  rw [queryUnescape.eq_def]
  dsimp only
  simp

theorem queryUnescape_cons_pct {h1 h2 : Nat} (rest : GoStr) {x y : Nat}
    (hx : unhexByte h1 = some x) (hy : unhexByte h2 = some y) :
    queryUnescape (37 :: h1 :: h2 :: rest) =
      (queryUnescape rest).map (fun t => (16 * x + y) :: t) := by
  rw [queryUnescape.eq_def]
  dsimp only
  simp [hx, hy]

theorem unhexByte_hexUpper {x : Nat} (h : x < 16) : unhexByte (hexUpper x) = some x := by
  rcases Nat.lt_or_ge x 10 with h10 | h10
  · have hv : hexUpper x = 48 + x := by simp [hexUpper, h10]
    rw [hv]
    simp only [unhexByte]
    rw [if_pos (by omega)]
    congr 1
    omega
  · have hv : hexUpper x = 55 + x := by
      have : ¬x < 10 := by omega
      simp [hexUpper, this]
    rw [hv]
    simp only [unhexByte]
    rw [if_neg (by omega), if_neg (by omega), if_pos (by omega)]
    congr 1
    omega

theorem queryUnescape_queryEscape (s : GoStr) (hs : IsBytes s) :
    queryUnescape (queryEscape s) = some s := by
  induction s with
  | nil => rfl
  | cons b rest ih =>
    have hb : b < 256 := hs b (by simp)
    have hrest : IsBytes rest := fun x hx => hs x (by simp [hx])
    have ih2 := ih hrest
    by_cases hu : isUnreservedByte b = true
    · have hb37 : b ≠ 37 := by
        intro h; rw [h] at hu; simp [isUnreservedByte] at hu
      have hb43 : b ≠ 43 := by
        intro h; rw [h] at hu; simp [isUnreservedByte] at hu
      simp only [queryEscape, List.map_cons, List.flatten_cons, if_pos hu, List.cons_append,
        List.nil_append]
      simp only [queryEscape] at ih2
      rw [queryUnescape_cons_other _ hb37 hb43, ih2]
      rfl
    · by_cases hsp : b = 32
      · subst hsp
        simp only [queryEscape, List.map_cons, List.flatten_cons, if_neg hu, if_true,
          List.cons_append, List.nil_append]
        simp only [queryEscape] at ih2
        rw [queryUnescape_cons_plus, ih2]
        rfl
      · simp only [queryEscape, List.map_cons, List.flatten_cons, if_neg hu, if_neg hsp, escByte,
          List.cons_append, List.nil_append]
        simp only [queryEscape, escByte] at ih2
        rw [queryUnescape_cons_pct _ (unhexByte_hexUpper (x := b / 16) (by omega))
          (unhexByte_hexUpper (x := b % 16) (by omega)), ih2]
        have hbb : 16 * (b / 16) + b % 16 = b := by omega
        simp only [hbb]
        rfl

/-! ### Model of Go `net/url` URL parsing, resolution and serialization

The proxy calls `url.Parse`, `URL.Parse` (resolution against a base) and
`URL.String`; the model below follows the Go standard library
implementation (`src/net/url/url.go`). -/

/-- Escaping contexts of `net/url` (the `encoding` enumeration). -/
inductive EncMode
  | path
  | pathSegment
  | host
  | zone
  | userPassword
  | queryComponent
  | fragment
deriving DecidableEq

/-- ASCII letter byte. -/
def isAlphaByte (b : Nat) : Bool := (65 ≤ b && b ≤ 90) || (97 ≤ b && b ≤ 122)

/-- ASCII digit byte. -/
def isDigitByte (b : Nat) : Bool := 48 ≤ b && b ≤ 57

/-- Model of `net/url`'s `shouldEscape`. -/
def shouldEscape (c : Nat) (mode : EncMode) : Bool :=
  if isAlphaByte c || isDigitByte c then false
  else if (mode = .host ∨ mode = .zone) ∧
      c ∈ [33, 36, 38, 39, 40, 41, 42, 43, 44, 59, 61, 58, 91, 93, 60, 62, 34] then false
  else if c ∈ [45, 95, 46, 126] then false
  else if c ∈ [36, 38, 43, 44, 47, 58, 59, 61, 63, 64] then
    match mode with
    | .path => c = 63
    | .pathSegment => c = 47 || c = 59 || c = 44 || c = 63
    | .userPassword => c = 64 || c = 47 || c = 63 || c = 58
    | .queryComponent => true
    | .fragment => false
    | .host => true
    | .zone => true
  else if mode = .fragment ∧ c ∈ [33, 40, 41, 42] then false
  else true

/-- Model of `net/url`'s `escape`. -/
def escapeMode (mode : EncMode) (s : GoStr) : GoStr :=
  (s.map (fun b =>
    if b = 32 ∧ mode = .queryComponent then [43]
    else if shouldEscape b mode then escByte b
    else [b])).flatten

/-- Model of `net/url`'s `unescape`: fails on a malformed `%` sequence, on a
low (`< 0x80`) percent-encoded byte other than `%25` in a host, on an invalid
percent-encoded byte in a zone, and on a raw host/zone byte that would need
escaping; `+` becomes a space only in the query-component mode. -/
def unescapeMode (mode : EncMode) : GoStr → Option GoStr
  | [] => some []
  | b :: rest =>
    if b = 37 then
      match rest with
      | h1 :: h2 :: rest2 =>
        match unhexByte h1, unhexByte h2 with
        | some x, some y =>
          if mode = .host ∧ x < 8 ∧ ¬(h1 = 50 ∧ h2 = 53) then none
          else if mode = .zone ∧ ¬(h1 = 50 ∧ h2 = 53) ∧ 16 * x + y ≠ 32 ∧
              shouldEscape (16 * x + y) .host then none
          else (unescapeMode mode rest2).map (fun t => (16 * x + y) :: t)
        | _, _ => none
      | _ => none
    else if b = 43 then
      (unescapeMode mode rest).map
        (fun t => (if mode = .queryComponent then 32 else 43) :: t)
    else
      if (mode = .host ∨ mode = .zone) ∧ b < 128 ∧ shouldEscape b mode then none
      else (unescapeMode mode rest).map (fun t => b :: t)

/-- Model of `net/url`'s `validEncoded`. -/
def validEncoded (s : GoStr) (mode : EncMode) : Bool :=
  s.all (fun c =>
    if c ∈ [33, 36, 38, 39, 40, 41, 42, 43, 44, 59, 61, 58, 64] then true
    else if c = 91 ∨ c = 93 then true
    else if c = 37 then true
    else ¬shouldEscape c mode)

/-- Model of `net/url`'s `validOptionalPort`. -/
def validOptionalPort (port : GoStr) : Bool :=
  match port with
  | [] => true
  | b :: rest => b = 58 && rest.all isDigitByte

/-- Model of `net/url`'s `validUserinfo` (non-ASCII bytes are rejected,
matching the rune-level Go check on such input). -/
def validUserinfo (s : GoStr) : Bool :=
  s.all (fun b =>
    isAlphaByte b || isDigitByte b ||
    b ∈ [45, 46, 95, 58, 126, 33, 36, 38, 39, 40, 41, 42, 43, 44, 59, 61, 37, 64])

/-- Userinfo of a URL (`url.User` / `url.UserPassword`). -/
structure Userinfo where
  username : GoStr
  password : Option GoStr
deriving DecidableEq

/-- Model of `Userinfo.String`. -/
def userinfoString (ui : Userinfo) : GoStr :=
  escapeMode .userPassword ui.username ++
  (match ui.password with
   | none => []
   | some pw => 58 :: escapeMode .userPassword pw)

/-- Model of the `url.URL` structure (fields used by the proxy). -/
structure URL where
  scheme : GoStr := []
  opaq : GoStr := []
  user : Option Userinfo := none
  host : GoStr := []
  path : GoStr := []
  rawPath : GoStr := []
  omitHost : Bool := false
  forceQuery : Bool := false
  rawQuery : GoStr := []
  fragment : GoStr := []
  rawFragment : GoStr := []
deriving DecidableEq

/-- Empty URL value. -/
def emptyURL : URL := {}

/-- First index of a substring, or none (model of `strings.Index`). -/
def idxOfSub (s sub : GoStr) : Option Nat :=
  s.tails.findIdx? (fun t => sub.isPrefixOf t)

/-- Model of `net/url`'s `getScheme` scanning loop.  Returns
`(scheme, rest)`, with an empty scheme when the input has none, and `none`
on a leading `:` (the "missing protocol scheme" error). -/
def getSchemeAux (orig : GoStr) : GoStr → GoStr → Bool → Option (GoStr × GoStr)
  | [], _, _ => some ([], orig)
  | b :: rest, acc, isFirst =>
    if isAlphaByte b then getSchemeAux orig rest (acc ++ [b]) false
    else if isDigitByte b || b = 43 || b = 45 || b = 46 then
      if isFirst then some ([], orig) else getSchemeAux orig rest (acc ++ [b]) false
    else if b = 58 then
      if isFirst then none else some (acc, rest)
    else some ([], orig)

/-- Model of `net/url`'s `getScheme`. -/
def getScheme (s : GoStr) : Option (GoStr × GoStr) := getSchemeAux s s [] true

/-- Model of `net/url`'s `parseHost`. -/
def parseHost (host : GoStr) : Option GoStr :=
  if goHasPrefix host [91] then
    match lastIdxOfByte 93 host with
    | none => none
    | some i =>
      if ¬validOptionalPort (host.drop (i + 1)) then none
      else
        match idxOfSub (host.take i) (gs "%25") with
        | some zone => do
          let host1 ← unescapeMode .host (host.take zone)
          let host2 ← unescapeMode .zone ((host.take i).drop zone)
          let host3 ← unescapeMode .host (host.drop i)
          pure (host1 ++ host2 ++ host3)
        | none => unescapeMode .host host
  else
    match lastIdxOfByte 58 host with
    | none => unescapeMode .host host
    | some i =>
      if ¬validOptionalPort (host.drop i) then none
      else unescapeMode .host host

/-- Model of `net/url`'s `parseAuthority`. -/
def parseAuthority (authority : GoStr) : Option (Option Userinfo × GoStr) :=
  match lastIdxOfByte 64 authority with
  | none => (parseHost authority).map (fun h => (none, h))
  | some i => do
    let host ← parseHost (authority.drop (i + 1))
    let userinfo := authority.take i
    if ¬validUserinfo userinfo then none
    else if ¬containsSub userinfo [58] then do
      let un ← unescapeMode .userPassword userinfo
      pure (some ⟨un, none⟩, host)
    else do
      let c := goCutByte 58 userinfo
      let un ← unescapeMode .userPassword c.1
      let pw ← unescapeMode .userPassword c.2.1
      pure (some ⟨un, some pw⟩, host)

/-- Model of `URL.setPath`. -/
def setPath (u : URL) (p : GoStr) : Option URL :=
  (unescapeMode .path p).map (fun path =>
    { u with path := path, rawPath := if escapeMode .path path = p then [] else p })

/-- Model of `URL.setFragment`. -/
def setFragment (u : URL) (f : GoStr) : Option URL :=
  (unescapeMode .fragment f).map (fun frag =>
    { u with fragment := frag,
             rawFragment := if escapeMode .fragment frag = f then [] else f })

/-- Model of `URL.EscapedPath`. -/
def escapedPath (u : URL) : GoStr :=
  if u.rawPath ≠ [] ∧ validEncoded u.rawPath .path ∧
      unescapeMode .path u.rawPath = some u.path then u.rawPath
  else if u.path = [42] then [42]
  else escapeMode .path u.path

/-- Model of `URL.EscapedFragment`. -/
def escapedFragment (u : URL) : GoStr :=
  if u.rawFragment ≠ [] ∧ validEncoded u.rawFragment .fragment ∧
      unescapeMode .fragment u.rawFragment = some u.fragment then u.rawFragment
  else escapeMode .fragment u.fragment

/-- Query splitting step of `net/url`'s `parse`: a single trailing `?` sets
`ForceQuery`, otherwise the string is cut at the first `?`. -/
def splitQuery (rest : GoStr) : GoStr × Bool × GoStr :=
  if goHasSuffix rest [63] ∧ ¬containsSub rest.dropLast [63] then
    (rest.dropLast, true, [])
  else
    let c := goCutByte 63 rest
    (c.1, false, c.2.1)

/-- Authority-and-path step of `net/url`'s `parse` (after the scheme and
query have been split off; `viaRequest` is false everywhere in the proxy). -/
def parseAfterQuery (scheme : GoStr) (forceQuery : Bool) (rawQuery : GoStr)
    (rest : GoStr) : Option URL :=
  if (scheme ≠ [] ∨ ¬goHasPrefix rest (gs "///")) ∧ goHasPrefix rest (gs "//") then do
    let authority0 := rest.drop 2
    let (authority, rest2) :=
      match idxOfByte 47 authority0 with
      | some i => (authority0.take i, authority0.drop i)
      | none => (authority0, ([] : GoStr))
    let (user, host) ← parseAuthority authority
    setPath
      { emptyURL with
          scheme := scheme, forceQuery := forceQuery,
          rawQuery := rawQuery, user := user, host := host } rest2
  else
    setPath
      { emptyURL with
          scheme := scheme, forceQuery := forceQuery,
          rawQuery := rawQuery,
          omitHost := scheme ≠ [] ∧ goHasPrefix rest [47] } rest

/-- Model of `net/url`'s `parse` (with `viaRequest = false`): control-byte
check, `*` case, scheme extraction and lower-casing, query split, opaque
rootless paths, the colon check on the first path segment, then authority
and path. -/
def goParseRaw (rawURL : GoStr) : Option URL :=
  if rawURL.any (fun b => b < 32 || b = 127) then none
  else if rawURL = [42] then some { emptyURL with path := [42] }
  else do
    let (scheme0, rest0) ← getScheme rawURL
    let scheme := strLower scheme0
    let (rest1, forceQuery, rawQuery) := splitQuery rest0
    if ¬goHasPrefix rest1 [47] ∧ scheme ≠ [] then
      pure
        { emptyURL with
            scheme := scheme, opaq := rest1,
            forceQuery := forceQuery, rawQuery := rawQuery }
    else if ¬goHasPrefix rest1 [47] ∧ containsSub (goCutByte 47 rest1).1 [58] then
      none
    else parseAfterQuery scheme forceQuery rawQuery rest1

/-- Model of `url.Parse`: the fragment is cut at the first `#` and set
afterwards (a missing or empty fragment is skipped). -/
def goParse (rawURL : GoStr) : Option URL := do
  let c := goCutByte 35 rawURL
  let u ← goParseRaw c.1
  if c.2.1 = [] then pure u else setFragment u c.2.1

/-- Model of `net/url`'s `resolvePath` (merge and remove-dot-segments). -/
def resolvePath (base ref : GoStr) : GoStr :=
  let full : GoStr :=
    if ref = [] then base
    else if ref.head? ≠ some 47 then
      (match lastIdxOfByte 47 base with
       | some i => base.take (i + 1)
       | none => []) ++ ref
    else ref
  if full = [] then []
  else
    let segs := full.splitOn 47
    let st := segs.foldl (fun (st : GoStr × Bool) elem =>
      if elem = [46] then (st.1, false)
      else if elem = [46, 46] then
        let str := st.1.drop 1
        match lastIdxOfByte 47 str with
        | none => ([47], true)
        | some index => (47 :: str.take index, st.2)
      else
        ((if st.2 then st.1 else st.1 ++ [47]) ++ elem, false)) ([47], true)
    let last := (segs.getLast?).getD []
    let r := st.1 ++ (if last = [46] ∨ last = [46, 46] then [47] else [])
    if r.length > 1 ∧ r.get? 1 = some 47 then r.drop 1 else r

/-- Variant of `setPath` whose error is discarded, as in
`URL.ResolveReference`. -/
def setPathIgnore (u : URL) (p : GoStr) : URL := (setPath u p).getD u

/-- Model of `URL.ResolveReference`. -/
def resolveReference (u ref : URL) : URL :=
  let url1 := if ref.scheme = [] then { ref with scheme := u.scheme } else ref
  if ref.scheme ≠ [] ∨ ref.host ≠ [] ∨ ref.user ≠ none then
    setPathIgnore url1 (resolvePath (escapedPath ref) [])
  else if ref.opaq ≠ [] then
    { url1 with user := none, host := [], path := [] }
  else
    let url2 :=
      if ref.path = [] ∧ ¬ref.forceQuery ∧ ref.rawQuery = [] then
        let url2a := { url1 with rawQuery := u.rawQuery }
        if ref.fragment = [] then
          { url2a with fragment := u.fragment, rawFragment := u.rawFragment }
        else url2a
      else url1
    setPathIgnore { url2 with host := u.host, user := u.user }
      (resolvePath (escapedPath u) (escapedPath ref))

/-- Model of `URL.Parse` (parse a reference and resolve it against `base`). -/
def urlResolve (base : URL) (ref : GoStr) : Option URL :=
  (goParse ref).map (resolveReference base)

/-- Model of `URL.String`. -/
def urlString (u : URL) : GoStr :=
  let part1 : GoStr := if u.scheme ≠ [] then u.scheme ++ [58] else []
  let part2 : GoStr :=
    if u.opaq ≠ [] then u.opaq
    else
      let hostPart : GoStr :=
        if u.scheme ≠ [] ∨ u.host ≠ [] ∨ u.user ≠ none then
          if u.omitHost ∧ u.host = [] ∧ u.user = none then []
          else
            (if u.host ≠ [] ∨ u.path ≠ [] ∨ u.user ≠ none then gs "//" else []) ++
            (match u.user with
             | none => []
             | some ui => userinfoString ui ++ [64]) ++
            (if u.host ≠ [] then escapeMode .host u.host else [])
        else []
      let path := escapedPath u
      let slash : GoStr :=
        if path ≠ [] ∧ path.head? ≠ some 47 ∧ u.host ≠ [] then [47] else []
      let dotSlash : GoStr :=
        if part1 = [] ∧ hostPart = [] ∧ slash = [] then
          if containsSub (goCutByte 47 path).1 [58] then gs "./" else []
        else []
      hostPart ++ slash ++ dotSlash ++ path
  part1 ++ part2 ++
  (if u.forceQuery ∨ u.rawQuery ≠ [] then 63 :: u.rawQuery else []) ++
  (if u.fragment ≠ [] then 35 :: escapedFragment u else [])

/-! ### URL codec and header rewriting (`internex/internal/transport`) -/

/-- Model of `EncodeProxyPath`:
`"/proxy?url=" + url.QueryEscape(targetURL)`. -/
def EncodeProxyPath (targetURL : GoStr) : GoStr :=
  gs "/proxy?url=" ++ queryEscape targetURL

/-- Model of `EncodeProxyURL`: `ProxyOrigin + EncodeProxyPath(targetURL)`
(the process-wide `ProxyOrigin` is passed explicitly). -/
def EncodeProxyURL (proxyOrigin targetURL : GoStr) : GoStr :=
  proxyOrigin ++ EncodeProxyPath targetURL

/-- Model of `DecodeProxyURL`: percent-decode, parse, and accept only the
`http` and `https` schemes. -/
def DecodeProxyURL (encoded : GoStr) : GoStr × Bool :=
  match queryUnescape encoded with
  | none => ([], false)
  | some decoded =>
    match goParse decoded with
    | none => ([], false)
    | some parsed =>
      if parsed.scheme ≠ gs "http" ∧ parsed.scheme ≠ gs "https" then ([], false)
      else (decoded, true)

/-- Model of `RewriteLocationHeader`: resolve the redirect target against
the upstream base, then encode; parse failures fall back to encoding the
raw value, and an empty value stays empty. -/
def RewriteLocationHeader (upstreamBase location : GoStr) : GoStr :=
  if location = [] then []
  else
    match goParse upstreamBase with
    | none => EncodeProxyPath location
    | some base =>
      match urlResolve base location with
      | none => EncodeProxyPath location
      | some resolved => EncodeProxyPath (urlString resolved)

/-! ### Set-Cookie rewriting (`internex/internal/transport`) -/

/-- Attribute match of `removeCookieAttr`: a trimmed segment matches when,
lower-cased, it starts with `attr=` or equals `attr`. -/
def matchesAttr (attr trimmed : GoStr) : Bool :=
  goHasPrefix (strLower trimmed) (strLower attr ++ [61]) || strLower trimmed = strLower attr

/-- Model of `removeCookieAttr`: split on `;`, trim each segment, drop the
segments matching the attribute, and re-join with `"; "`. -/
def removeCookieAttr (cookie attr : GoStr) : GoStr :=
  goJoin (gs "; ")
    (((goSplitByte 59 cookie).map trimSpace).filter (fun t => !matchesAttr attr t))

/-- Model of `RewriteSetCookieDomain` (its `proxyHost` parameter is unused by
the Go function; the decisions read the process-wide `ProxyOrigin`, passed
here explicitly): strip `Domain`, strip `SameSite`, strip `Secure` when the
proxy origin is plain http, then append `SameSite=None` and, when the proxy
origin is https, `Secure`. -/
def RewriteSetCookieDomain (proxyOrigin setCookie : GoStr) : GoStr :=
  let out1 := removeCookieAttr setCookie (gs "Domain")
  let out2 := removeCookieAttr out1 (gs "SameSite")
  let out3 :=
    if goHasPrefix proxyOrigin (gs "http://") then removeCookieAttr out2 (gs "Secure")
    else out2
  out3 ++ gs "; SameSite=None" ++
    (if goHasPrefix proxyOrigin (gs "https://") then gs "; Secure" else [])

/-! ### Response-header filtering (`internex/internal/transport/headers.go`) -/

/-- Header map model: entries in insertion order, one entry per key. -/
abbrev Header := List (GoStr × List GoStr)

/-- Model of `textproto`'s `validHeaderFieldByte` (HTTP token bytes). -/
def isTokenByte (b : Nat) : Bool :=
  isAlphaByte b || isDigitByte b ||
  b ∈ [33, 35, 36, 37, 38, 39, 42, 43, 45, 46, 94, 95, 96, 124, 126]

/-- Case-canonicalization walk of `CanonicalMIMEHeaderKey`: upper-case after
the start or a `-`, lower-case otherwise. -/
def canonKeyAux : List Nat → Bool → List Nat
  | [], _ => []
  | b :: rest, upper =>
    (if upper then (if 97 ≤ b ∧ b ≤ 122 then b - 32 else b)
     else (if 65 ≤ b ∧ b ≤ 90 then b + 32 else b)) :: canonKeyAux rest (b = 45)

/-- Model of `textproto.CanonicalMIMEHeaderKey` (used by `http.Header.Add`):
keys holding an invalid byte are returned unchanged. -/
def canonicalMIMEHeaderKey (s : GoStr) : GoStr :=
  if s.all isTokenByte then canonKeyAux s true else s

/-- Model of `http.Header.Add`: canonicalize the key and append the value. -/
def headerAdd (h : Header) (k v : GoStr) : Header :=
  let key := canonicalMIMEHeaderKey k
  if (h.map Prod.fst).contains key then
    h.map (fun kv => if kv.1 = key then (kv.1, kv.2 ++ [v]) else kv)
  else h ++ [(key, [v])]

/-- Values stored under a key (empty when absent), for stating properties of
header maps. -/
def headerValues (h : Header) (k : GoStr) : List GoStr :=
  ((h.find? (fun kv => kv.1 = k)).map Prod.snd).getD []

/-- The hop-by-hop header set of `headers.go`. -/
def hopByHopHeaders : List GoStr :=
  [gs "Connection", gs "Keep-Alive", gs "Proxy-Authenticate", gs "Proxy-Authorization",
   gs "Te", gs "Trailer", gs "Transfer-Encoding", gs "Upgrade"]

/-- The stripped security/embedding header set of `headers.go`. -/
def strippedSecurityHeaders : List GoStr :=
  [gs "Content-Security-Policy", gs "Content-Security-Policy-Report-Only",
   gs "X-Content-Security-Policy", gs "Cross-Origin-Opener-Policy",
   gs "Cross-Origin-Embedder-Policy", gs "Cross-Origin-Resource-Policy",
   gs "X-Frame-Options", gs "Referrer-Policy", gs "Strict-Transport-Security",
   gs "X-XSS-Protection", gs "Permissions-Policy"]

/-- One iteration of the `CopyResponseHeadersWithContext` loop: skip
hop-by-hop and stripped security headers, rewrite `Location` and
`Set-Cookie` values, and add everything else unchanged (the Go source's
`content-length` case adds the values unchanged exactly like the default
case). -/
def copyHeaderEntry (proxyOrigin targetURL : GoStr) (dst : Header)
    (k : GoStr) (vv : List GoStr) : Header :=
  if hopByHopHeaders.contains k then dst
  else if strippedSecurityHeaders.contains k then dst
  else if strLower k = gs "location" then
    vv.foldl (fun d v => headerAdd d k (RewriteLocationHeader targetURL v)) dst
  else if strLower k = gs "set-cookie" then
    vv.foldl (fun d v => headerAdd d k (RewriteSetCookieDomain proxyOrigin v)) dst
  else
    vv.foldl (fun d v => headerAdd d k v) dst

/-- Model of `CopyResponseHeadersWithContext` (the process-wide `ProxyOrigin`
is passed explicitly; the derived `proxyHost` is only passed through to
`RewriteSetCookieDomain`, which ignores it). -/
def CopyResponseHeadersWithContext (proxyOrigin : GoStr) (dst src : Header)
    (targetURL : GoStr) : Header :=
  src.foldl (fun d kv => copyHeaderEntry proxyOrigin targetURL d kv.1 kv.2) dst

/-! ### Session store (`transport`'s per-origin cookie jar and storage) -/

/-- Model of the `http.Cookie` fields the store uses.  `expires` models
`time.Time` as an instant count, with `0` the zero `time.Time`
(`IsZero`), and `Before` the strict order on instants. -/
structure Cookie where
  name : GoStr
  value : GoStr
  path : GoStr
  expires : Nat
deriving DecidableEq

/-- Model of `OriginSession` (its mutex only serializes access). -/
structure OriginSession where
  cookies : List Cookie
  localStorage : GoStr → Option GoStr
  sessionStorage : GoStr → Option GoStr

/-- Model of `SessionStore`: the origin-keyed session map. -/
abbrev SessionStore := GoStr → Option OriginSession

/-- Model of `NewSessionStore`. -/
def NewSessionStore : SessionStore := fun _ => none

/-- Fresh empty session created by `getOrCreate`. -/
def emptySession : OriginSession :=
  { cookies := [], localStorage := fun _ => none, sessionStorage := fun _ => none }

/-- Model of `getOrCreate` (the session value it yields; creation is
reflected by the callers that write the session back). -/
def getOrCreate (s : SessionStore) (origin : GoStr) : OriginSession :=
  (s origin).getD emptySession

/-- Model of `strings.EqualFold` (ASCII fragment). -/
def equalFold (a b : GoStr) : Bool := strLower a = strLower b

/-- Inner loop of `SetCookiesFromResponse` for one parsed cookie: replace in
place the first stored cookie with the same name and case-insensitively
equal path, else append. -/
def upsertCookie : List Cookie → Cookie → List Cookie
  | [], c => [c]
  | e :: rest, c =>
    if e.name = c.name ∧ equalFold e.path c.path then c :: rest
    else e :: upsertCookie rest c

/-- Model of `SetCookiesFromResponse`.  The parsed result of
`resp.Cookies()` is taken as the cookie list; with no parsed cookie the
store is returned untouched (no session is created). -/
def SetCookiesFromResponse (s : SessionStore) (origin : GoStr)
    (cookies : List Cookie) : SessionStore :=
  if cookies = [] then s
  else
    let sess := getOrCreate s origin
    Function.update s origin
      (some { sess with cookies := cookies.foldl upsertCookie sess.cookies })

/-- Filtering loop of `CookieHeader`: skip a cookie iff its expiry is
non-zero and strictly before `now`. -/
def cookieParts (now : Nat) : List Cookie → List GoStr
  | [] => []
  | c :: rest =>
    if c.expires ≠ 0 ∧ c.expires < now then cookieParts now rest
    else (c.name ++ [61] ++ c.value) :: cookieParts now rest

/-- Model of `CookieHeader`. -/
def CookieHeader (now : Nat) (s : SessionStore) (origin : GoStr) : GoStr :=
  match s origin with
  | none => []
  | some sess => goJoin (gs "; ") (cookieParts now sess.cookies)

/-- Model of `GetCookies` (the Go method returns a fresh slice with the
same cookies; `nil` for a missing session). -/
def GetCookies (s : SessionStore) (origin : GoStr) : List Cookie :=
  match s origin with
  | none => []
  | some sess => sess.cookies

/-- Deletion loop of `DeleteCookie`: remove the first cookie with the given
name, then stop. -/
def deleteCookieFromList (name : GoStr) : List Cookie → List Cookie
  | [] => []
  | c :: rest => if c.name = name then rest else c :: deleteCookieFromList name rest

/-- Model of `DeleteCookie`. -/
def DeleteCookie (s : SessionStore) (origin name : GoStr) : SessionStore :=
  match s origin with
  | none => s
  | some sess =>
    Function.update s origin
      (some { sess with cookies := deleteCookieFromList name sess.cookies })

/-- Model of `SetLocalStorage`. -/
def SetLocalStorage (s : SessionStore) (origin key value : GoStr) : SessionStore :=
  let sess := getOrCreate s origin
  Function.update s origin
    (some { sess with localStorage := Function.update sess.localStorage key (some value) })

/-- Model of `GetLocalStorage`. -/
def GetLocalStorage (s : SessionStore) (origin key : GoStr) : GoStr × Bool :=
  match s origin with
  | none => ([], false)
  | some sess =>
    match sess.localStorage key with
    | none => ([], false)
    | some v => (v, true)

/-- Model of `DeleteLocalStorage`. -/
def DeleteLocalStorage (s : SessionStore) (origin key : GoStr) : SessionStore :=
  match s origin with
  | none => s
  | some sess =>
    Function.update s origin
      (some { sess with localStorage := Function.update sess.localStorage key none })

/-- Model of `ClearLocalStorage` (a fresh empty map). -/
def ClearLocalStorage (s : SessionStore) (origin : GoStr) : SessionStore :=
  match s origin with
  | none => s
  | some sess => Function.update s origin (some { sess with localStorage := fun _ => none })

/-- Model of `SetSessionStorage`. -/
def SetSessionStorage (s : SessionStore) (origin key value : GoStr) : SessionStore :=
  let sess := getOrCreate s origin
  Function.update s origin
    (some { sess with sessionStorage := Function.update sess.sessionStorage key (some value) })

/-- Model of `GetSessionStorage`. -/
def GetSessionStorage (s : SessionStore) (origin key : GoStr) : GoStr × Bool :=
  match s origin with
  | none => ([], false)
  | some sess =>
    match sess.sessionStorage key with
    | none => ([], false)
    | some v => (v, true)

/-- Model of `DeleteSessionStorage`. -/
def DeleteSessionStorage (s : SessionStore) (origin key : GoStr) : SessionStore :=
  match s origin with
  | none => s
  | some sess =>
    Function.update s origin
      (some { sess with sessionStorage := Function.update sess.sessionStorage key none })

/-- Model of `ClearSessionStorage` (a fresh empty map). -/
def ClearSessionStorage (s : SessionStore) (origin : GoStr) : SessionStore :=
  match s origin with
  | none => s
  | some sess => Function.update s origin (some { sess with sessionStorage := fun _ => none })

/-- Model of `ClearAll`. -/
def ClearAll (_ : SessionStore) : SessionStore := NewSessionStore

/-! ### JavaScript side: `encodeURIComponent` and a basic WHATWG URL model

The runtime and the dev server run in a JS engine; `encodeURIComponent` is
modelled exactly at the byte level, and `new URL` is modelled for basic
absolute `http(s)`/`ws(s)` URLs and simple relative references (no
userinfo, no percent- or dot-segment normalization), which covers every URL
shape these functions are applied to in this development. -/

/-- Bytes `encodeURIComponent` leaves unescaped:
ALPHA / DIGIT / `-` / `_` / `.` / `!` / `~` / `*` / `'` / `(` / `)`. -/
def isEncodeURIComponentSafe (b : Nat) : Bool :=
  isAlphaByte b || isDigitByte b || b ∈ [45, 95, 46, 33, 126, 42, 39, 40, 41]

/-- Model of JavaScript `encodeURIComponent` (UTF-8 bytes, upper-case hex). -/
def encodeURIComponent (s : GoStr) : GoStr :=
  (s.map (fun b => if isEncodeURIComponentSafe b then [b] else escByte b)).flatten

/-- Model of the WHATWG `URL` components used by the proxy scripts. -/
structure JSURL where
  protocol : GoStr
  host : GoStr
  pathname : GoStr
  search : GoStr
  hash : GoStr
deriving DecidableEq

/-- Model of `URL.origin` for the special schemes handled here. -/
def jsOrigin (u : JSURL) : GoStr := u.protocol ++ gs "//" ++ u.host

/-- Model of `URL.href` for the URL shapes handled here. -/
def jsHref (u : JSURL) : GoStr := jsOrigin u ++ u.pathname ++ u.search ++ u.hash

/-- Model of `new URL(s)` on a basic absolute `http(s)`/`ws(s)` URL: scheme
and host are lower-cased, an empty path becomes `/`, query and fragment are
carried in `search`/`hash`. -/
def jsURLParse (s : GoStr) : Option JSURL :=
  let low := strLower s
  let schemeLen :=
    if goHasPrefix low (gs "https://") then some 5
    else if goHasPrefix low (gs "http://") then some 4
    else if goHasPrefix low (gs "wss://") then some 3
    else if goHasPrefix low (gs "ws://") then some 2
    else none
  match schemeLen with
  | none => none
  | some n =>
    let proto := strLower (s.take n) ++ [58]
    let rest := s.drop (n + 3)
    let hostLen := (rest.takeWhile (fun b => b ≠ 47 ∧ b ≠ 63 ∧ b ≠ 35)).length
    let host := strLower (rest.take hostLen)
    if host = [] then none
    else
      let tail := rest.drop hostLen
      let pathLen := (tail.takeWhile (fun b => b ≠ 63 ∧ b ≠ 35)).length
      let rawPath := tail.take pathLen
      let qtail := tail.drop pathLen
      let searchLen := (qtail.takeWhile (fun b => b ≠ 35)).length
      some { protocol := proto, host := host,
             pathname := if rawPath = [] then [47] else rawPath,
             search := qtail.take searchLen, hash := qtail.drop searchLen }

/-- Model of `new URL(ref, base)` for the reference shapes the proxy scripts
produce: absolute, protocol-relative, root-relative, and plain relative
paths. -/
def jsURLResolve (ref baseStr : GoStr) : Option JSURL :=
  match jsURLParse ref with
  | some u => some u
  | none =>
    match jsURLParse baseStr with
    | none => none
    | some b =>
      if goHasPrefix ref (gs "//") then jsURLParse (b.protocol ++ ref)
      else if goHasPrefix ref [47] then jsURLParse (jsOrigin b ++ ref)
      else if ref = [] then some b
      else
        let dir :=
          match lastIdxOfByte 47 b.pathname with
          | some i => b.pathname.take (i + 1)
          | none => [47]
        jsURLParse (jsOrigin b ++ dir ++ ref)

/-! ### Injected client runtime (`internex.runtime.js`, in `assets/app.js`) -/

/-- State of the runtime's base-URL cell (`BASE_URL` / `BASE_ORIGIN`),
as read through `getBaseURL` / `getBaseOrigin` after initialization. -/
structure RuntimeBase where
  baseURL : GoStr
  baseOrigin : GoStr

/-- Model of the runtime's `isProxied`. -/
def isProxied (u : GoStr) : Bool := containsSub u (gs "/proxy?url=")

/-- Model of the `/^\s*javascript\s*:/i` test (ASCII whitespace fragment). -/
def javascriptSchemeTest (s : GoStr) : Bool :=
  let t := s.dropWhile isSpaceByte
  if goHasPrefix (strLower t) (gs "javascript") then
    ((t.drop 10).dropWhile isSpaceByte).head? = some 58
  else false

/-- Model of the `/^(https?|wss?):\/\//i` test. -/
def absSchemeTest (s : GoStr) : Bool :=
  goHasPrefix (strLower s) (gs "http://") || goHasPrefix (strLower s) (gs "https://") ||
  goHasPrefix (strLower s) (gs "ws://") || goHasPrefix (strLower s) (gs "wss://")

/-- Scheme of the base URL with the `https:` default, as computed by the
protocol-relative branch of the runtime's `rewriteUrl` (the `new URL`
failure falls back to the default). -/
def baseSchemeOf (baseURL : GoStr) : GoStr :=
  if baseURL = [] then gs "https:"
  else
    match jsURLParse baseURL with
    | some u => u.protocol
    | none => gs "https:"

/-- Model of the runtime's `rewriteUrl` (app.js §2), for string input and an
initialized base cell.  Note the absolute-URL branch encodes the input
as-is: the runtime has no proxy-host remap. -/
def rewriteUrl (base : RuntimeBase) (raw : GoStr) : GoStr :=
  let s := trimSpace raw
  if s = [] then s
  else if s.head? = some 35 ∨ s = gs "about:blank" ∨
      goHasPrefix s (gs "data:") ∨ goHasPrefix s (gs "blob:") ∨
      goHasPrefix s (gs "mailto:") ∨ goHasPrefix s (gs "tel:") then s
  else if javascriptSchemeTest s then gs "javascript:void(0)"
  else if isProxied s then s
  else if s.head? = some 47 ∧ s.get? 1 = some 47 then
    gs "/proxy?url=" ++ encodeURIComponent (baseSchemeOf base.baseURL ++ s)
  else if absSchemeTest s then
    gs "/proxy?url=" ++ encodeURIComponent s
  else if s.head? = some 47 then
    if base.baseOrigin ≠ [] then
      gs "/proxy?url=" ++ encodeURIComponent (base.baseOrigin ++ s)
    else s
  else if base.baseURL ≠ [] then
    match jsURLResolve s base.baseURL with
    | some r => gs "/proxy?url=" ++ encodeURIComponent (jsHref r)
    | none => s
  else s

/-! ### Dev server resolver (`dev-server.js`) -/

/-- Model of `resolveProxyUrl` (dev-server.js), with the module-level
`PROXY_HOST` passed explicitly.  `none` models an uncaught exception of the
`new URL` calls outside `try` blocks. -/
def resolveProxyUrl (proxyHost rawUrl baseUrl : GoStr) : Option GoStr :=
  if rawUrl = [] then some rawUrl
  else
    let s := trimSpace rawUrl
    if s = [] ∨ goHasPrefix s (gs "data:") ∨ goHasPrefix s (gs "blob:") ∨
        goHasPrefix s (gs "javascript:") ∨ goHasPrefix s (gs "mailto:") ∨
        goHasPrefix s (gs "tel:") ∨ goHasPrefix s (gs "#") then some s
    else if s = gs "/internex.runtime.js" ∨
        goHasPrefix s (gs "/internex.runtime.js?") then some s
    else if isProxied s then some s
    else if goHasPrefix s (gs "//") then
      match (if baseUrl ≠ [] then (jsURLParse baseUrl).map JSURL.protocol
             else some (gs "https:")) with
      | none => none
      | some scheme => some (gs "/proxy?url=" ++ encodeURIComponent (scheme ++ s))
    else if absSchemeTest s then
      let remapped :=
        match jsURLParse s with
        | none => none
        | some abs =>
          if strLower abs.host = proxyHost ∧ baseUrl ≠ [] then
            match jsURLParse baseUrl with
            | none => none
            | some b =>
              (jsURLResolve (abs.pathname ++ abs.search ++ abs.hash) (jsOrigin b)).map
                (fun r => gs "/proxy?url=" ++ encodeURIComponent (jsHref r))
          else none
      match remapped with
      | some out => some out
      | none => some (gs "/proxy?url=" ++ encodeURIComponent s)
    else if goHasPrefix s [47] then
      match (if baseUrl ≠ [] then (jsURLParse baseUrl).map jsOrigin else some []) with
      | none => none
      | some origin =>
        if origin ≠ [] then some (gs "/proxy?url=" ++ encodeURIComponent (origin ++ s))
        else some s
    else if baseUrl ≠ [] then
      match jsURLResolve s baseUrl with
      | some r => some (gs "/proxy?url=" ++ encodeURIComponent (jsHref r))
      | none => some s
    else some s

/-! ### Client storage namespacing (`internex.runtime.js` §9) -/

/-- Model of the real Web Storage backing store: key/value entries in
insertion order (the Storage interface keeps one entry per key). -/
abbrev JSStorage := List (GoStr × GoStr)

/-- Model of `Storage.getItem` (null becomes `none`). -/
def realGetItem (st : JSStorage) (k : GoStr) : Option GoStr :=
  (st.find? (fun kv => kv.1 = k)).map Prod.snd

/-- Model of `Storage.setItem`: replace the value in place when the key is
present, else append the new entry. -/
def realSetItem : JSStorage → GoStr → GoStr → JSStorage
  | [], k, v => [(k, v)]
  | kv :: rest, k, v =>
    if kv.1 = k then (kv.1, v) :: rest else kv :: realSetItem rest k v

/-- Model of `Storage.removeItem`. -/
def realRemoveItem (st : JSStorage) (k : GoStr) : JSStorage :=
  st.eraseP (fun kv => kv.1 = k)

/-- Model of `Storage.key(i)` (null becomes `none`). -/
def realKey (st : JSStorage) (i : Nat) : Option GoStr := (st.map Prod.fst).get? i

/-- Model of `Storage.length`. -/
def realLength (st : JSStorage) : Nat := st.length

/-- Model of the runtime's `storagePrefix`: `"__ix_" + origin + "_"`. -/
def storagePrefix (origin : GoStr) : GoStr := gs "__ix_" ++ origin ++ [95]

/-- Model of the namespaced wrapper's `getItem`. -/
def nsGetItem (origin : GoStr) (st : JSStorage) (k : GoStr) : Option GoStr :=
  realGetItem st (storagePrefix origin ++ k)

/-- Model of the namespaced wrapper's `setItem`. -/
def nsSetItem (origin : GoStr) (st : JSStorage) (k v : GoStr) : JSStorage :=
  realSetItem st (storagePrefix origin ++ k) v

/-- Model of the namespaced wrapper's `removeItem`. -/
def nsRemoveItem (origin : GoStr) (st : JSStorage) (k : GoStr) : JSStorage :=
  realRemoveItem st (storagePrefix origin ++ k)

/-- One step of the wrapper's `clear` loop at index `i`: remove the entry
when its key is truthy and carries the prefix. -/
def nsClearStep (p : GoStr) (st : JSStorage) (i : Nat) : JSStorage :=
  match realKey st i with
  | some k => if k ≠ [] ∧ goHasPrefix k p then realRemoveItem st k else st
  | none => st

/-- The wrapper's `clear` loop, walking indices `n-1` down to `0`. -/
def nsClearFrom (p : GoStr) : JSStorage → Nat → JSStorage
  | st, 0 => st
  | st, n + 1 => nsClearFrom p (nsClearStep p st n) n

/-- Model of the namespaced wrapper's `clear`. -/
def nsClear (origin : GoStr) (st : JSStorage) : JSStorage :=
  nsClearFrom (storagePrefix origin) st (realLength st)

/-- Counting walk of the wrapper's `key(idx)`. -/
def nsKeyAux (p : GoStr) : List GoStr → Nat → Option GoStr
  | [], _ => none
  | k :: rest, idx =>
    if k ≠ [] ∧ goHasPrefix k p then
      if idx = 0 then some (k.drop p.length) else nsKeyAux p rest (idx - 1)
    else nsKeyAux p rest idx

/-- Model of the namespaced wrapper's `key(idx)`: the `idx`-th prefixed key,
with the prefix stripped. -/
def nsKey (origin : GoStr) (st : JSStorage) (idx : Nat) : Option GoStr :=
  nsKeyAux (storagePrefix origin) (st.map Prod.fst) idx

/-- Counting loop of the wrapper's `length` getter (a null key counts as the
empty string, which never carries the nonempty prefix). -/
def nsLengthAux (p : GoStr) : List GoStr → Nat
  | [] => 0
  | k :: rest => (if goHasPrefix k p then 1 else 0) + nsLengthAux p rest

/-- Model of the namespaced wrapper's `length` getter. -/
def nsLength (origin : GoStr) (st : JSStorage) : Nat :=
  nsLengthAux (storagePrefix origin) (st.map Prod.fst)

/-! ### String lemmas used by the cookie-rewriting proof -/

theorem trimSpace_eq_rdropWhile (s : GoStr) :
    trimSpace s = (s.dropWhile isSpaceByte).rdropWhile isSpaceByte := rfl

theorem dropWhile_trimSpace (s : GoStr) :
    (trimSpace s).dropWhile isSpaceByte = trimSpace s := by
  cases hts : trimSpace s with
  | nil => rfl
  | cons a t =>
    have hpre : trimSpace s <+: s.dropWhile isSpaceByte :=
      List.rdropWhile_prefix isSpaceByte (s.dropWhile isSpaceByte)
    rw [hts] at hpre
    obtain ⟨r, hr⟩ := hpre
    have hne : s.dropWhile isSpaceByte ≠ [] := by
      rw [← hr]
      simp
    have hhead : (s.dropWhile isSpaceByte).head hne = a := by
      have h1 : (s.dropWhile isSpaceByte).head? = some a := by
        rw [← hr]
        rfl
      rw [List.head?_eq_head hne] at h1
      exact Option.some.inj h1
    have hnot := List.head_dropWhile_not isSpaceByte s hne
    rw [hhead] at hnot
    rw [List.dropWhile_cons, if_neg (by simp [hnot])]

theorem trimSpace_idem (s : GoStr) : trimSpace (trimSpace s) = trimSpace s := by
  rw [trimSpace_eq_rdropWhile (trimSpace s), dropWhile_trimSpace,
    trimSpace_eq_rdropWhile s]
  exact List.rdropWhile_idempotent _ _

theorem trimSpace_cons_space (h : GoStr) : trimSpace (32 :: h) = trimSpace h := by
  simp [trimSpace, List.dropWhile_cons, isSpaceByte]

theorem mem_trimSpace {a : Nat} {s : GoStr} (h : a ∈ trimSpace s) : a ∈ s := by
  rw [trimSpace_eq_rdropWhile] at h
  have h1 : a ∈ s.dropWhile isSpaceByte :=
    (List.rdropWhile_prefix isSpaceByte (s.dropWhile isSpaceByte)).subset h
  exact (List.dropWhile_sublist (p := isSpaceByte) (l := s)).subset h1

theorem not_mem_of_mem_splitOnP (p : Nat → Bool) :
    ∀ (l : List Nat), ∀ x ∈ l.splitOnP p, ∀ a ∈ x, ¬p a := by
  intro l
  induction l with
  | nil =>
    intro x hx a ha
    rw [List.splitOnP_nil] at hx
    rcases List.mem_singleton.1 hx with rfl
    simp at ha
  | cons b l ih =>
    intro x hx a ha
    rw [List.splitOnP_cons] at hx
    by_cases hb : p b
    · rw [if_pos hb] at hx
      rcases List.mem_cons.1 hx with h1 | h2
      · subst h1
        simp at ha
      · exact ih x h2 a ha
    · rw [if_neg hb] at hx
      obtain ⟨h0, t0, hsp⟩ : ∃ h0 t0, l.splitOnP p = h0 :: t0 := by
        cases hsp : l.splitOnP p with
        | nil => exact absurd hsp (List.splitOnP_ne_nil p l)
        | cons h0 t0 => exact ⟨h0, t0, rfl⟩
      rw [hsp] at hx
      simp only [List.modifyHead] at hx
      rcases List.mem_cons.1 hx with h1 | h2
      · subst h1
        rcases List.mem_cons.1 ha with ha1 | ha2
        · subst ha1
          exact hb
        · exact ih h0 (by rw [hsp]; exact List.mem_cons_self _ _) a ha2
      · exact ih x (by rw [hsp]; exact List.mem_cons_of_mem _ h2) a ha

theorem not_mem_of_mem_splitOn {l x : GoStr} (hx : x ∈ l.splitOn 59) : ¬(59 ∈ x) := by
  intro hmem
  have := not_mem_of_mem_splitOnP (fun a => a == 59) l x hx 59 hmem
  simp at this

theorem stable_segments (c : GoStr) :
    ∀ t ∈ (goSplitByte 59 c).map trimSpace, trimSpace t = t ∧ ¬(59 ∈ t) := by
  intro t ht
  obtain ⟨seg, hseg, rfl⟩ := List.mem_map.1 ht
  refine ⟨trimSpace_idem seg, fun hmem => ?_⟩
  exact not_mem_of_mem_splitOn hseg (mem_trimSpace hmem)

theorem goJoin_two (sep p q : GoStr) (rest : List GoStr) :
    goJoin sep (p :: q :: rest) = p ++ sep ++ goJoin sep (q :: rest) := rfl

theorem splitJoin (parts : List GoStr) (hne : parts ≠ [])
    (hs : ∀ t ∈ parts, trimSpace t = t ∧ ¬(59 ∈ t)) :
    ((goJoin (gs "; ") parts).splitOn 59).map trimSpace = parts := by
  induction parts with
  | nil => exact absurd rfl hne
  | cons p rest ih =>
    cases rest with
    | nil =>
      have hp := hs p (by simp)
      show ((goJoin (gs "; ") [p]).splitOn 59).map trimSpace = [p]
      have hj : goJoin (gs "; ") [p] = p := rfl
      rw [hj, List.splitOn, List.splitOnP_eq_single]
      · simp only [List.map_cons, List.map_nil]
        rw [hp.1]
      · intro x hx
        simp only [beq_iff_eq]
        intro heq
        exact hp.2 (heq ▸ hx)
    | cons q rest2 =>
      have hp := hs p (by simp)
      have ih2 := ih (by simp) (fun t ht => hs t (List.mem_cons_of_mem _ ht))
      have hform : goJoin (gs "; ") (p :: q :: rest2) =
          p ++ 59 :: 32 :: goJoin (gs "; ") (q :: rest2) := by
        rw [goJoin_two]
        simp [show gs "; " = [59, 32] from rfl]
      have hnp : ∀ x ∈ p, ¬((x == 59) = true) := by
        intro x hx
        simp only [beq_iff_eq]
        intro heq
        exact hp.2 (heq ▸ hx)
      rw [hform, List.splitOn, List.splitOnP_first _ _ hnp 59 (by simp) _]
      obtain ⟨h1, t1, hsp1⟩ : ∃ h1 t1,
          (goJoin (gs "; ") (q :: rest2)).splitOnP (· == 59) = h1 :: t1 := by
        cases hsp1 : (goJoin (gs "; ") (q :: rest2)).splitOnP (· == 59) with
        | nil => exact absurd hsp1 (List.splitOnP_ne_nil _ _)
        | cons h1 t1 => exact ⟨h1, t1, rfl⟩
      have hsp2 : (32 :: goJoin (gs "; ") (q :: rest2)).splitOnP (· == 59) =
          (32 :: h1) :: t1 := by
        rw [List.splitOnP_cons, if_neg (by simp), hsp1]
        rfl
      rw [hsp2]
      rw [List.splitOn, hsp1] at ih2
      simp only [List.map_cons] at ih2 ⊢
      rw [hp.1, trimSpace_cons_space]
      rw [List.cons_inj_right]
      exact ih2

theorem removeCookieAttr_join (parts : List GoStr)
    (hs : ∀ t ∈ parts, trimSpace t = t ∧ ¬(59 ∈ t)) (b : GoStr) :
    removeCookieAttr (goJoin (gs "; ") parts) b =
      goJoin (gs "; ") (parts.filter (fun t => !matchesAttr b t)) := by
  cases parts with
  | nil =>
    show removeCookieAttr [] b = goJoin (gs "; ") []
    unfold removeCookieAttr
    have h1 : goSplitByte 59 ([] : GoStr) = [[]] := rfl
    rw [h1]
    simp only [List.map_cons, List.map_nil]
    have h2 : trimSpace ([] : GoStr) = [] := rfl
    rw [h2]
    by_cases hm : matchesAttr b []
    · rw [List.filter_cons, if_neg (by simp [hm])]
      rfl
    · rw [List.filter_cons, if_pos (by simp [hm])]
      rfl
  | cons p rest =>
    unfold removeCookieAttr
    rw [goSplitByte, splitJoin (p :: rest) (by simp) hs]

theorem removeCookieAttr_spec (c b : GoStr) :
    removeCookieAttr c b =
      goJoin (gs "; ")
        (((goSplitByte 59 c).map trimSpace).filter (fun t => !matchesAttr b t)) := rfl

theorem filter_stable {parts : List GoStr}
    (hs : ∀ t ∈ parts, trimSpace t = t ∧ ¬(59 ∈ t)) (q : GoStr → Bool) :
    ∀ t ∈ parts.filter q, trimSpace t = t ∧ ¬(59 ∈ t) :=
  fun t ht => hs t (List.mem_of_mem_filter ht)

/-- C3: for every upstream `Set-Cookie` header value `c`, the rewritten value
is `c`'s trimmed attribute segments with the `Domain` attribute removed and
the `SameSite` attribute removed, with the `Secure` attribute removed if and
only if the proxy origin is plain http, re-joined with `"; "`, then with
`"; SameSite=None"` appended, and with `"; Secure"` appended if and only if
the proxy origin is https. -/
theorem C3_rewrite_set_cookie (proxyOrigin c : GoStr) :
    RewriteSetCookieDomain proxyOrigin c =
      goJoin (gs "; ")
        (((goSplitByte 59 c).map trimSpace).filter (fun t =>
          !matchesAttr (gs "Domain") t && !matchesAttr (gs "SameSite") t &&
          (!goHasPrefix proxyOrigin (gs "http://") || !matchesAttr (gs "Secure") t))) ++
      gs "; SameSite=None" ++
      (if goHasPrefix proxyOrigin (gs "https://") then gs "; Secure" else []) := by
  have hL := stable_segments c
  have h1 : removeCookieAttr c (gs "Domain") =
      goJoin (gs "; ")
        (((goSplitByte 59 c).map trimSpace).filter
          (fun t => !matchesAttr (gs "Domain") t)) := removeCookieAttr_spec _ _
  have h2 : removeCookieAttr (removeCookieAttr c (gs "Domain")) (gs "SameSite") =
      goJoin (gs "; ")
        ((((goSplitByte 59 c).map trimSpace).filter
          (fun t => !matchesAttr (gs "Domain") t)).filter
          (fun t => !matchesAttr (gs "SameSite") t)) := by
    rw [h1, removeCookieAttr_join _ (filter_stable hL _)]
  rw [RewriteSetCookieDomain.eq_def]
  dsimp only
  by_cases hhttp : goHasPrefix proxyOrigin (gs "http://")
  · rw [if_pos hhttp, h2, removeCookieAttr_join _ (filter_stable (filter_stable hL _) _)]
    rw [List.filter_filter, List.filter_filter]
    congr 3
    apply List.filter_congr
    intro t _
    cases hd : matchesAttr (gs "Domain") t <;>
      cases hss : matchesAttr (gs "SameSite") t <;>
        cases hsec : matchesAttr (gs "Secure") t <;> simp [hhttp]
  · rw [if_neg hhttp, h2, List.filter_filter]
    congr 3
    apply List.filter_congr
    intro t _
    rw [Bool.not_eq_true] at hhttp
    cases hd : matchesAttr (gs "Domain") t <;>
      cases hss : matchesAttr (gs "SameSite") t <;> simp [hhttp]

/-! ### Claims C8, C10, C7, C1 -/

theorem cookieParts_eq_filter (now : Nat) (l : List Cookie) :
    cookieParts now l =
      (l.filter (fun c => decide (c.expires = 0 ∨ now ≤ c.expires))).map
        (fun c => c.name ++ [61] ++ c.value) := by
  induction l with
  | nil => rfl
  | cons c rest ih =>
    rw [cookieParts.eq_def]
    dsimp only
    by_cases h : c.expires ≠ 0 ∧ c.expires < now
    · rw [if_pos h, List.filter_cons,
        if_neg (by simp only [decide_eq_true_eq]; omega), ih]
    · rw [if_neg h, List.filter_cons,
        if_pos (by simp only [decide_eq_true_eq]; omega), ih, List.map_cons]

/-- C8: `CookieHeader` returns the `"; "`-join of `name=value` for exactly
the stored cookies that are not expired, where a cookie with a zero
`Expires` field is never expired and any other cookie is expired exactly
when its expiry is strictly before the current time; an origin with no
session yields the empty string. -/
theorem C8_cookie_header (now : Nat) (s : SessionStore) (origin : GoStr) :
    CookieHeader now s origin =
      match s origin with
      | none => []
      | some sess =>
        goJoin (gs "; ")
          ((sess.cookies.filter (fun c => decide (c.expires = 0 ∨ now ≤ c.expires))).map
            (fun c => c.name ++ [61] ++ c.value)) := by
  rw [CookieHeader]
  cases s origin with
  | none => rfl
  | some sess =>
    dsimp only
    rw [cookieParts_eq_filter]

/-- C10: on an origin with no session, every read and delete operation of the
session store returns an empty result and leaves the store unchanged, and
absorbing a response with no parsed cookie creates no session either. -/
theorem C10_missing_session (s : SessionStore) (origin : GoStr) (now : Nat)
    (k name : GoStr) (h : s origin = none) :
    CookieHeader now s origin = [] ∧
    GetCookies s origin = [] ∧
    GetLocalStorage s origin k = ([], false) ∧
    GetSessionStorage s origin k = ([], false) ∧
    DeleteCookie s origin name = s ∧
    DeleteLocalStorage s origin k = s ∧
    DeleteSessionStorage s origin k = s ∧
    ClearLocalStorage s origin = s ∧
    ClearSessionStorage s origin = s ∧
    SetCookiesFromResponse s origin [] = s := by
  refine ⟨?_, ?_, ?_, ?_, ?_, ?_, ?_, ?_, ?_, ?_⟩ <;>
    simp [CookieHeader, GetCookies, GetLocalStorage, GetSessionStorage, DeleteCookie,
      DeleteLocalStorage, DeleteSessionStorage, ClearLocalStorage, ClearSessionStorage,
      SetCookiesFromResponse, h]

theorem C10_missing_session_witness :
    CookieHeader 0 NewSessionStore (gs "https://example.com") = [] ∧
    GetCookies NewSessionStore (gs "https://example.com") = [] ∧
    GetLocalStorage NewSessionStore (gs "https://example.com") (gs "k") = ([], false) ∧
    GetSessionStorage NewSessionStore (gs "https://example.com") (gs "k") = ([], false) ∧
    DeleteCookie NewSessionStore (gs "https://example.com") (gs "sid") = NewSessionStore ∧
    DeleteLocalStorage NewSessionStore (gs "https://example.com") (gs "k") =
      NewSessionStore ∧
    DeleteSessionStorage NewSessionStore (gs "https://example.com") (gs "k") =
      NewSessionStore ∧
    ClearLocalStorage NewSessionStore (gs "https://example.com") = NewSessionStore ∧
    ClearSessionStorage NewSessionStore (gs "https://example.com") = NewSessionStore ∧
    SetCookiesFromResponse NewSessionStore (gs "https://example.com") [] =
      NewSessionStore :=
  C10_missing_session NewSessionStore (gs "https://example.com") 0 (gs "k") (gs "sid") rfl

/-- C7: absorbing a response's parsed cookies upserts each one with identity
(name, case-insensitive path): a stored cookie with the same identity is
replaced in place at its position and all other cookies are untouched,
otherwise the new cookie is appended at the end; the jar of the origin is
the left fold of this upsert, and other origins are unchanged. -/
theorem C7_cookie_upsert (s : SessionStore) (origin o2 : GoStr) (c : Cookie)
    (cs : List Cookie) (jar : List Cookie) (h2 : o2 ≠ origin) :
    (match jar.findIdx? (fun e => decide (e.name = c.name ∧ equalFold e.path c.path)) with
     | some i => upsertCookie jar c = jar.set i c
     | none => upsertCookie jar c = jar ++ [c]) ∧
    SetCookiesFromResponse s origin (c :: cs) origin =
      some { getOrCreate s origin with
             cookies := (c :: cs).foldl upsertCookie (getOrCreate s origin).cookies } ∧
    SetCookiesFromResponse s origin (c :: cs) o2 = s o2 := by
  refine ⟨?_, ?_, ?_⟩
  · induction jar with
    | nil => simp [List.findIdx?_nil, upsertCookie]
    | cons e rest ih =>
      by_cases h : e.name = c.name ∧ equalFold e.path c.path
      · rw [List.findIdx?_cons, if_pos (by simpa using h)]
        show upsertCookie (e :: rest) c = (e :: rest).set 0 c
        rw [upsertCookie.eq_def]
        dsimp only
        rw [if_pos h]
        rfl
      · rw [List.findIdx?_cons, if_neg (by simpa using h)]
        have hstep : upsertCookie (e :: rest) c = e :: upsertCookie rest c := by
          rw [upsertCookie.eq_def]
          dsimp only
          rw [if_neg h]
        cases hfi : rest.findIdx? (fun e => decide (e.name = c.name ∧ equalFold e.path c.path)) with
        | none =>
          rw [hfi] at ih
          simp only [List.findIdx?_succ, hfi, Option.map_none]
          rw [hstep, ih]
          rfl
        | some i =>
          rw [hfi] at ih
          simp only [List.findIdx?_succ, hfi, Option.map_some]
          rw [hstep, ih]
          rfl
  · rw [SetCookiesFromResponse, if_neg (by simp)]
    simp [Function.update]
  · rw [SetCookiesFromResponse, if_neg (by simp)]
    simp [Function.update, h2]

theorem C7_cookie_upsert_witness :
    (match ([⟨gs "sid", gs "old", gs "/", 0⟩, ⟨gs "t", gs "1", gs "/", 0⟩] :
        List Cookie).findIdx?
        (fun e => decide (e.name = (⟨gs "sid", gs "new", gs "/", 0⟩ : Cookie).name ∧
          equalFold e.path (⟨gs "sid", gs "new", gs "/", 0⟩ : Cookie).path)) with
     | some i =>
       upsertCookie [⟨gs "sid", gs "old", gs "/", 0⟩, ⟨gs "t", gs "1", gs "/", 0⟩]
           ⟨gs "sid", gs "new", gs "/", 0⟩ =
         ([⟨gs "sid", gs "old", gs "/", 0⟩, ⟨gs "t", gs "1", gs "/", 0⟩] :
           List Cookie).set i ⟨gs "sid", gs "new", gs "/", 0⟩
     | none =>
       upsertCookie [⟨gs "sid", gs "old", gs "/", 0⟩, ⟨gs "t", gs "1", gs "/", 0⟩]
           ⟨gs "sid", gs "new", gs "/", 0⟩ =
         [⟨gs "sid", gs "old", gs "/", 0⟩, ⟨gs "t", gs "1", gs "/", 0⟩] ++
           [⟨gs "sid", gs "new", gs "/", 0⟩]) ∧
    SetCookiesFromResponse NewSessionStore (gs "https://example.com")
        [⟨gs "sid", gs "abc", gs "/", 0⟩] (gs "https://example.com") =
      some { getOrCreate NewSessionStore (gs "https://example.com") with
             cookies := ([⟨gs "sid", gs "abc", gs "/", 0⟩] : List Cookie).foldl upsertCookie
               (getOrCreate NewSessionStore (gs "https://example.com")).cookies } ∧
    SetCookiesFromResponse NewSessionStore (gs "https://example.com")
        [⟨gs "sid", gs "abc", gs "/", 0⟩] (gs "https://other.com") =
      NewSessionStore (gs "https://other.com") := by
  refine ⟨?_, ?_, ?_⟩
  · exact (C7_cookie_upsert NewSessionStore (gs "https://example.com") (gs "https://other.com")
      ⟨gs "sid", gs "new", gs "/", 0⟩ []
      [⟨gs "sid", gs "old", gs "/", 0⟩, ⟨gs "t", gs "1", gs "/", 0⟩] (by decide)).1
  · exact (C7_cookie_upsert NewSessionStore (gs "https://example.com") (gs "https://other.com")
      ⟨gs "sid", gs "abc", gs "/", 0⟩ []
      [] (by decide)).2.1
  · exact (C7_cookie_upsert NewSessionStore (gs "https://example.com") (gs "https://other.com")
      ⟨gs "sid", gs "abc", gs "/", 0⟩ []
      [] (by decide)).2.2

/-- C1: the specification claims `decode(encode(T)) = (T, true)` for every
target whose scheme is http, https, ws or wss.  At the websocket target
`wss://ws.example.com/s`, the encoded form percent-decodes back to the
target and the target parses with scheme `wss`, yet `DecodeProxyURL`
returns `("", false)`: the decoder accepts only `http` and `https`, so the
proxy's own WebSocket bridge can never be reached through `/proxy`. -/
theorem C1_websocket_decode_fails :
    queryUnescape (queryEscape (gs "wss://ws.example.com/s")) =
      some (gs "wss://ws.example.com/s") ∧
    (goParse (gs "wss://ws.example.com/s")).map URL.scheme = some (gs "wss") ∧
    DecodeProxyURL (queryEscape (gs "wss://ws.example.com/s")) = ([], false) := by
  refine ⟨by decide, by decide, by decide⟩

/-! ### Claims C6 and C2 -/

/-- C6 (counterexample): the claim says every input containing
`"/proxy?url="` is returned unchanged by the resolver, but the runtime's
`rewriteUrl` sanitizes `javascript:` inputs before its already-proxied
check, so `"javascript:/proxy?url=a"` comes back as
`"javascript:void(0)"`. -/
theorem C6_counterexample :
    isProxied (gs "javascript:/proxy?url=a") = true ∧
    rewriteUrl ⟨gs "https://example.com/page", gs "https://example.com"⟩
        (gs "javascript:/proxy?url=a") = gs "javascript:void(0)" ∧
    gs "javascript:void(0)" ≠ gs "javascript:/proxy?url=a" :=
  ⟨by decide, by decide, by decide⟩

/-- C6 (amended): an already-trimmed input that contains `"/proxy?url="` and
does not match the `javascript:` pattern is returned unchanged both by the
runtime's `rewriteUrl` and by the dev server's `resolveProxyUrl` (inputs
with surrounding whitespace are first trimmed, and `javascript:` inputs are
sanitized by the runtime). -/
theorem C6_amended (base : RuntimeBase) (proxyHost baseUrl x : GoStr)
    (ht : trimSpace x = x) (hp : isProxied x = true)
    (hj : javascriptSchemeTest x = false) :
    rewriteUrl base x = x ∧ resolveProxyUrl proxyHost x baseUrl = some x := by
  have hx : x ≠ [] := by
    intro he
    rw [he] at hp
    exact absurd hp (by decide)
  constructor
  · rw [rewriteUrl.eq_def]
    dsimp only
    rw [ht, if_neg hx]
    split
    · rfl
    · split
      · next hjs => rw [hj] at hjs; exact absurd hjs (by simp)
      · rfl
  · rw [resolveProxyUrl.eq_def]
    dsimp only
    rw [if_neg hx, ht]
    split
    · rfl
    · split
      · rfl
      · rfl

theorem C6_amended_witness :
    rewriteUrl ⟨gs "https://example.com/page", gs "https://example.com"⟩
        (gs "/proxy?url=abc") = gs "/proxy?url=abc" ∧
    resolveProxyUrl (gs "localhost:8080") (gs "/proxy?url=abc")
        (gs "https://example.com/page") = some (gs "/proxy?url=abc") :=
  C6_amended ⟨gs "https://example.com/page", gs "https://example.com"⟩
    (gs "localhost:8080") (gs "https://example.com/page") (gs "/proxy?url=abc")
    (by decide) (by decide) (by decide)

theorem head_of_goHasPrefix {s pre : GoStr} {b : Nat}
    (hp : goHasPrefix s pre = true) (hpre : pre.head? = some b) :
    s.head? = some b := by
  rw [goHasPrefix, List.isPrefixOf_iff_prefix] at hp
  obtain ⟨t, ht⟩ := hp
  cases pre with
  | nil => simp at hpre
  | cons pb pt =>
    cases s with
    | nil => simp at ht
    | cons sb st =>
      have h1 : pb = sb := by
        have := congrArg List.head? ht
        simpa using this
      simp only [List.head?_cons] at hpre ⊢
      rw [← h1]
      exact hpre

theorem strLower_head {s : GoStr} {v : Nat} (h : (strLower s).head? = some v) :
    ∃ b, s.head? = some b ∧ lowerByte b = v := by
  cases s with
  | nil => simp [strLower] at h
  | cons b t =>
    refine ⟨b, rfl, ?_⟩
    simpa [strLower] using h

theorem lowerByte_cases {b v : Nat} (h : lowerByte b = v) :
    b = v ∨ (b + 32 = v ∧ 65 ≤ b ∧ b ≤ 90) := by
  rw [lowerByte] at h
  by_cases hb : 65 ≤ b ∧ b ≤ 90
  · rw [if_pos hb] at h
    right
    exact ⟨h, hb⟩
  · rw [if_neg hb] at h
    left
    exact h

theorem abs_head {s : GoStr} (habs : absSchemeTest s = true) :
    ∃ b t, s = b :: t ∧ (lowerByte b = 104 ∨ lowerByte b = 119) := by
  rw [absSchemeTest] at habs
  simp only [Bool.or_eq_true] at habs
  have hhead : (strLower s).head? = some 104 ∨ (strLower s).head? = some 119 := by
    rcases habs with ((h | h) | h) | h
    · exact Or.inl (head_of_goHasPrefix h (by decide))
    · exact Or.inl (head_of_goHasPrefix h (by decide))
    · exact Or.inr (head_of_goHasPrefix h (by decide))
    · exact Or.inr (head_of_goHasPrefix h (by decide))
  have hb : ∃ b, s.head? = some b ∧ (lowerByte b = 104 ∨ lowerByte b = 119) := by
    rcases hhead with h | h
    · obtain ⟨b, hb1, hb2⟩ := strLower_head h
      exact ⟨b, hb1, Or.inl hb2⟩
    · obtain ⟨b, hb1, hb2⟩ := strLower_head h
      exact ⟨b, hb1, Or.inr hb2⟩
  obtain ⟨b, hb1, hb2⟩ := hb
  cases s with
  | nil => simp at hb1
  | cons b0 t =>
    simp only [List.head?_cons, Option.some.injEq] at hb1
    exact ⟨b0, t, rfl, hb1 ▸ hb2⟩

theorem abs_head_val {b : Nat} (h : lowerByte b = 104 ∨ lowerByte b = 119) :
    b = 104 ∨ b = 72 ∨ b = 119 ∨ b = 87 := by
  rcases h with h | h <;> rcases lowerByte_cases h with h1 | ⟨h1, h2⟩ <;> omega

/-- C2 (counterexample): the claim extends the proxy-host remap to every
surface including the injected runtime's `rewriteUrl`, but the runtime's
absolute branch encodes the input as-is: on
`http://localhost:8080/img.png` it emits a proxied URL whose decoded
target still points at the proxy host. -/
theorem C2_counterexample :
    rewriteUrl ⟨gs "https://example.com/page", gs "https://example.com"⟩
        (gs "http://localhost:8080/img.png") =
      gs "/proxy?url=http%3A%2F%2Flocalhost%3A8080%2Fimg.png" ∧
    queryUnescape (gs "http%3A%2F%2Flocalhost%3A8080%2Fimg.png") =
      some (gs "http://localhost:8080/img.png") ∧
    gs "/proxy?url=http%3A%2F%2Flocalhost%3A8080%2Fimg.png" ≠
      gs "/proxy?url=https%3A%2F%2Fexample.com%2Fimg.png" :=
  ⟨by decide, by decide, by decide⟩

/-- C2 (amended): the dev server's `resolveProxyUrl` remaps a proxy-host
absolute URL by substituting the origin of the base URL before encoding
(witnessed at the claim's instance), while the injected runtime's
`rewriteUrl` performs no remap: every trimmed, not already proxied input
matching the absolute-scheme pattern is encoded as-is. -/
theorem C2_amended :
    resolveProxyUrl (gs "localhost:8080") (gs "http://localhost:8080/img.png")
        (gs "https://example.com/page") =
      some (gs "/proxy?url=https%3A%2F%2Fexample.com%2Fimg.png") ∧
    ∀ (base : RuntimeBase) (s : GoStr), trimSpace s = s → absSchemeTest s = true →
      isProxied s = false →
      rewriteUrl base s = gs "/proxy?url=" ++ encodeURIComponent s := by
  constructor
  · decide
  · intro base s ht habs hpro
    obtain ⟨b, t, rfl, hlow⟩ := abs_head habs
    have hbv := abs_head_val hlow
    have hbs : isSpaceByte b = false := by
      rcases hbv with rfl | rfl | rfl | rfl <;> decide
    rw [rewriteUrl.eq_def]
    dsimp only
    rw [ht, if_neg (by simp)]
    have hcond1 : ¬((b :: t).head? = some 35 ∨ b :: t = gs "about:blank" ∨
        goHasPrefix (b :: t) (gs "data:") = true ∨
        goHasPrefix (b :: t) (gs "blob:") = true ∨
        goHasPrefix (b :: t) (gs "mailto:") = true ∨
        goHasPrefix (b :: t) (gs "tel:") = true) := by
      rintro (h | h | h | h | h | h)
      · simp only [List.head?_cons, Option.some.injEq] at h
        subst h
        rcases hlow with h | h <;> simp [lowerByte] at h
      · rw [h] at habs
        exact absurd habs (by decide)
      · have := head_of_goHasPrefix (b := 100) h (by decide)
        simp only [List.head?_cons, Option.some.injEq] at this
        subst this
        rcases hlow with h1 | h1 <;> simp [lowerByte] at h1
      · have := head_of_goHasPrefix (b := 98) h (by decide)
        simp only [List.head?_cons, Option.some.injEq] at this
        subst this
        rcases hlow with h1 | h1 <;> simp [lowerByte] at h1
      · have := head_of_goHasPrefix (b := 109) h (by decide)
        simp only [List.head?_cons, Option.some.injEq] at this
        subst this
        rcases hlow with h1 | h1 <;> simp [lowerByte] at h1
      · have := head_of_goHasPrefix (b := 116) h (by decide)
        simp only [List.head?_cons, Option.some.injEq] at this
        subst this
        rcases hlow with h1 | h1 <;> simp [lowerByte] at h1
    rw [if_neg hcond1]
    have hjs : javascriptSchemeTest (b :: t) = false := by
      have hdw : (b :: t).dropWhile isSpaceByte = b :: t := by
        rw [List.dropWhile_cons, if_neg (by simp [hbs])]
      have hnpre : goHasPrefix (strLower (b :: t)) (gs "javascript") = false := by
        by_contra hcon
        rw [Bool.not_eq_false] at hcon
        have := head_of_goHasPrefix (b := 106) hcon (by decide)
        simp only [strLower, List.map_cons, List.head?_cons, Option.some.injEq] at this
        omega
      rw [javascriptSchemeTest]
      rw [hdw, if_neg (by simp [hnpre])]
    rw [if_neg (by simp [hjs]), if_neg (by simp [hpro])]
    have hcond2 : ¬((b :: t).head? = some 47 ∧ (b :: t).get? 1 = some 47) := by
      rintro ⟨h, -⟩
      simp only [List.head?_cons, Option.some.injEq] at h
      omega
    rw [if_neg hcond2, if_pos habs]

theorem C2_amended_witness :
    rewriteUrl ⟨gs "https://example.com/page", gs "https://example.com"⟩
        (gs "http://other.com/a") =
      gs "/proxy?url=" ++ encodeURIComponent (gs "http://other.com/a") :=
  C2_amended.2 ⟨gs "https://example.com/page", gs "https://example.com"⟩
    (gs "http://other.com/a") (by decide) (by decide) (by decide)

/-! ### Claims C5 and C4 -/

theorem mem_keys_headerAdd {h : Header} {k v key : GoStr}
    (hmem : key ∈ (headerAdd h k v).map Prod.fst) :
    key ∈ h.map Prod.fst ∨ key = canonicalMIMEHeaderKey k := by
  rw [headerAdd] at hmem
  by_cases hc : (h.map Prod.fst).contains (canonicalMIMEHeaderKey k)
  · rw [if_pos hc] at hmem
    left
    rw [List.map_map] at hmem
    have hfun : (Prod.fst ∘ fun kv : GoStr × List GoStr =>
        if kv.1 = canonicalMIMEHeaderKey k then (kv.1, kv.2 ++ [v]) else kv) = Prod.fst := by
      funext kv
      by_cases hk : kv.1 = canonicalMIMEHeaderKey k <;> simp [hk]
    rw [hfun] at hmem
    exact hmem
  · rw [if_neg hc] at hmem
    rw [List.map_append] at hmem
    rcases List.mem_append.1 hmem with h1 | h1
    · exact Or.inl h1
    · right
      simpa using h1

theorem mem_keys_fold_headerAdd (k : GoStr) (g : GoStr → GoStr) :
    ∀ (vv : List GoStr) (dst : Header) (key : GoStr),
    key ∈ (vv.foldl (fun d v => headerAdd d k (g v)) dst).map Prod.fst →
    key ∈ dst.map Prod.fst ∨ key = canonicalMIMEHeaderKey k := by
  intro vv
  induction vv with
  | nil => intro dst key hk; exact Or.inl hk
  | cons v rest ih =>
    intro dst key hk
    rw [List.foldl_cons] at hk
    rcases ih _ key hk with h1 | h1
    · exact mem_keys_headerAdd h1
    · exact Or.inr h1

theorem mem_keys_copyHeaderEntry {proxyOrigin targetURL : GoStr} {dst : Header}
    {k key : GoStr} {vv : List GoStr}
    (hmem : key ∈ (copyHeaderEntry proxyOrigin targetURL dst k vv).map Prod.fst) :
    key ∈ dst.map Prod.fst ∨
      (key = canonicalMIMEHeaderKey k ∧ hopByHopHeaders.contains k = false ∧
        strippedSecurityHeaders.contains k = false) := by
  rw [copyHeaderEntry] at hmem
  by_cases h1 : hopByHopHeaders.contains k
  · rw [if_pos h1] at hmem
    exact Or.inl hmem
  · rw [if_neg h1] at hmem
    by_cases h2 : strippedSecurityHeaders.contains k
    · rw [if_pos h2] at hmem
      exact Or.inl hmem
    · rw [if_neg h2] at hmem
      rw [Bool.not_eq_true] at h1 h2
      by_cases h3 : strLower k = gs "location"
      · rw [if_pos h3] at hmem
        rcases mem_keys_fold_headerAdd k (RewriteLocationHeader targetURL) vv dst key hmem with
          h | h
        · exact Or.inl h
        · exact Or.inr ⟨h, h1, h2⟩
      · rw [if_neg h3] at hmem
        by_cases h4 : strLower k = gs "set-cookie"
        · rw [if_pos h4] at hmem
          rcases mem_keys_fold_headerAdd k (RewriteSetCookieDomain proxyOrigin) vv dst key
            hmem with h | h
          · exact Or.inl h
          · exact Or.inr ⟨h, h1, h2⟩
        · rw [if_neg h4] at hmem
          rcases mem_keys_fold_headerAdd k id vv dst key hmem with h | h
          · exact Or.inl h
          · exact Or.inr ⟨h, h1, h2⟩

theorem keys_copy_fold (proxyOrigin T : GoStr) :
    ∀ (src dst : Header),
    (∀ kv ∈ src, canonicalMIMEHeaderKey kv.1 = kv.1) →
    (∀ key ∈ dst.map Prod.fst, hopByHopHeaders.contains key = false ∧
      strippedSecurityHeaders.contains key = false) →
    ∀ key ∈ (src.foldl (fun d kv => copyHeaderEntry proxyOrigin T d kv.1 kv.2) dst).map
      Prod.fst,
      hopByHopHeaders.contains key = false ∧ strippedSecurityHeaders.contains key = false := by
  intro src
  induction src with
  | nil =>
    intro dst _ hdst key hkey
    exact hdst key hkey
  | cons kv rest ih =>
    intro dst hsrc hdst key hkey
    rw [List.foldl_cons] at hkey
    refine ih _ (fun kv2 h2 => hsrc kv2 (List.mem_cons_of_mem _ h2)) ?_ key hkey
    intro key2 hkey2
    rcases mem_keys_copyHeaderEntry hkey2 with h | ⟨heq, hb1, hb2⟩
    · exact hdst key2 h
    · rw [heq, hsrc kv (List.mem_cons_self _ _)]
      exact ⟨hb1, hb2⟩

theorem headerValues_eq_nil {h : Header} {b : GoStr}
    (hb : ∀ kv ∈ h, kv.1 ≠ b) : headerValues h b = [] := by
  rw [headerValues, List.find?_eq_none.mpr]
  · rfl
  · intro kv hkv
    simp only [decide_eq_true_eq]
    exact hb kv hkv

/-- C5: starting from an empty destination, the filtered response headers
contain none of the hop-by-hop headers and none of the stripped
security/embedding headers, for any upstream header set (whose keys are in
canonical form, as produced by Go's response parser). -/
theorem C5_header_filtering (proxyOrigin : GoStr) (src : Header) (T : GoStr)
    (hc : ∀ kv ∈ src, canonicalMIMEHeaderKey kv.1 = kv.1) :
    ∀ b ∈ hopByHopHeaders ++ strippedSecurityHeaders,
      headerValues (CopyResponseHeadersWithContext proxyOrigin [] src T) b = [] := by
  intro b hb
  have hkeys := keys_copy_fold proxyOrigin T src [] hc (by simp)
  rw [CopyResponseHeadersWithContext]
  apply headerValues_eq_nil
  intro kv hkv heq
  have hcontains := hkeys kv.1 (List.mem_map_of_mem Prod.fst hkv)
  rw [heq] at hcontains
  rcases List.mem_append.1 hb with h1 | h1
  · have : hopByHopHeaders.contains b = true := by
      simp only [hopByHopHeaders, List.mem_cons, List.not_mem_nil, or_false] at h1
      rcases h1 with rfl | rfl | rfl | rfl | rfl | rfl | rfl | rfl <;> decide
    rw [this] at hcontains
    exact absurd hcontains.1 (by simp)
  · have : strippedSecurityHeaders.contains b = true := by
      simp only [strippedSecurityHeaders, List.mem_cons, List.not_mem_nil, or_false] at h1
      rcases h1 with rfl | rfl | rfl | rfl | rfl | rfl | rfl | rfl | rfl | rfl | rfl <;> decide
    rw [this] at hcontains
    exact absurd hcontains.2 (by simp)

theorem C5_header_filtering_witness :
    (∀ kv ∈ ([(gs "Connection", [gs "close"]), (gs "X-Frame-Options", [gs "DENY"]),
        (gs "Content-Type", [gs "text/html"])] : Header),
      canonicalMIMEHeaderKey kv.1 = kv.1) ∧
    headerValues (CopyResponseHeadersWithContext (gs "http://localhost:8080") []
        [(gs "Connection", [gs "close"]), (gs "X-Frame-Options", [gs "DENY"]),
          (gs "Content-Type", [gs "text/html"])] (gs "https://example.com/page"))
      (gs "Connection") = [] := by
  constructor
  · decide
  · exact C5_header_filtering (gs "http://localhost:8080")
      [(gs "Connection", [gs "close"]), (gs "X-Frame-Options", [gs "DENY"]),
        (gs "Content-Type", [gs "text/html"])] (gs "https://example.com/page")
      (by decide) (gs "Connection") (by decide)

/-- C4 (counterexample): the claim demands `encode(resolve(T, L))` for every
Location value that parses, but an empty Location value parses (resolving
to `T` itself) and the code passes it through as the empty string instead
of encoding it. -/
theorem C4_counterexample :
    RewriteLocationHeader (gs "https://example.com/page") [] = [] ∧
    (urlResolve ((goParse (gs "https://example.com/page")).getD emptyURL) []).map
        (fun r => EncodeProxyPath (urlString r)) =
      some (gs "/proxy?url=https%3A%2F%2Fexample.com%2Fpage") ∧
    ([] : GoStr) ≠ gs "/proxy?url=https%3A%2F%2Fexample.com%2Fpage" :=
  ⟨by decide, by decide, by decide⟩

/-- C4 (amended): for every nonempty upstream Location value L and current
target T such that T parses and L parses and resolves against it, the
Location header emitted by the response-header filter equals the encoded
proxy path of L resolved against T; an empty Location value is passed
through empty. -/
theorem C4_amended (proxyOrigin T L : GoStr) (base r : URL)
    (hT : goParse T = some base) (hL : urlResolve base L = some r) (hne : L ≠ []) :
    RewriteLocationHeader T L = EncodeProxyPath (urlString r) ∧
    headerValues (CopyResponseHeadersWithContext proxyOrigin []
        [(gs "Location", [L])] T) (gs "Location") = [EncodeProxyPath (urlString r)] := by
  have h1 : RewriteLocationHeader T L = EncodeProxyPath (urlString r) := by
    rw [RewriteLocationHeader, if_neg hne, hT]
    dsimp only
    rw [hL]
  refine ⟨h1, ?_⟩
  rw [CopyResponseHeadersWithContext]
  simp only [List.foldl_cons, List.foldl_nil]
  rw [copyHeaderEntry, if_neg (by decide), if_neg (by decide), if_pos (by decide)]
  simp only [List.foldl_cons, List.foldl_nil]
  rw [h1, headerAdd]
  have hcanon : canonicalMIMEHeaderKey (gs "Location") = gs "Location" := by decide
  rw [hcanon]
  rw [if_neg (by simp)]
  rw [headerValues]
  simp [List.find?_cons]

theorem C4_amended_witness :
    headerValues (CopyResponseHeadersWithContext (gs "http://localhost:8080") []
        [(gs "Location", [gs "/next"])] (gs "https://example.com/page"))
      (gs "Location") = [gs "/proxy?url=https%3A%2F%2Fexample.com%2Fnext"] := by
  have h := (C4_amended (gs "http://localhost:8080") (gs "https://example.com/page")
    (gs "/next") ((goParse (gs "https://example.com/page")).getD emptyURL)
    ((urlResolve ((goParse (gs "https://example.com/page")).getD emptyURL)
      (gs "/next")).getD emptyURL)
    (by decide) (by decide) (by decide)).2
  rw [h]
  decide

/-! ### Claim C9 -/

theorem realGetItem_realSetItem (key v : GoStr) :
    ∀ st : JSStorage, realGetItem (realSetItem st key v) key = some v := by
  intro st
  induction st with
  | nil =>
    rw [realSetItem, realGetItem, List.find?_cons_of_pos _ (by simp)]
    rfl
  | cons kv rest ih =>
    by_cases h : kv.1 = key
    · rw [realSetItem.eq_def]
      dsimp only
      rw [if_pos h, realGetItem, List.find?_cons_of_pos _ (by simp [h])]
      rfl
    · rw [realSetItem.eq_def]
      dsimp only
      rw [if_neg h, realGetItem, List.find?_cons_of_neg _ (by simp [h])]
      exact ih

theorem goHasPrefix_nil {p : GoStr} (h : goHasPrefix [] p = true) : p = [] := by
  cases p with
  | nil => rfl
  | cons b t => simp [goHasPrefix, List.isPrefixOf] at h

theorem eraseP_key_at (st : JSStorage) (n : Nat) (hn : n < st.length)
    (hnd : (st.map Prod.fst).Nodup) :
    st.eraseP (fun kv => kv.1 = st[n].1) = st.take n ++ st.drop (n + 1) := by
  induction st generalizing n with
  | nil => simp at hn
  | cons kv rest ih =>
    cases n with
    | zero =>
      rw [List.eraseP_cons_of_pos (by simp)]
      simp
    | succ m =>
      have hm : m < rest.length := by
        simpa using hn
      have hidx : (kv :: rest)[m + 1] = rest[m] := rfl
      have hkey : rest[m].1 ∈ rest.map Prod.fst :=
        List.mem_map_of_mem Prod.fst (List.getElem_mem hm)
      have hne : ¬kv.1 = rest[m].1 := by
        intro he
        exact (List.nodup_cons.1 hnd).1 (he ▸ hkey)
      rw [List.eraseP_cons_of_neg (by simp [hne])]
      have hnd2 : (rest.map Prod.fst).Nodup := (List.nodup_cons.1 hnd).2
      rw [hidx, ih m hm hnd2]
      simp

theorem nsClearFrom_spec (p : GoStr) :
    ∀ (n : Nat) (st : JSStorage), n ≤ st.length → (st.map Prod.fst).Nodup →
    nsClearFrom p st n =
      (st.take n).filter (fun kv => !(decide (kv.1 ≠ []) && goHasPrefix kv.1 p)) ++
        st.drop n := by
  intro n
  induction n with
  | zero =>
    intro st _ _
    simp [nsClearFrom]
  | succ m ih =>
    intro st hn hnd
    have hm : m < st.length := by omega
    rw [nsClearFrom]
    have hkeyn : realKey st m = some st[m].1 := by
      rw [realKey, List.get?_eq_getElem?, List.getElem?_map,
        List.getElem?_eq_getElem hm]
      rfl
    have htake : st.take (m + 1) = st.take m ++ [st[m]] := by
      rw [List.take_succ, List.getElem?_eq_getElem hm]
      rfl
    have hdrop : st.drop m = st[m] :: st.drop (m + 1) :=
      List.drop_eq_getElem_cons hm
    by_cases hrem : st[m].1 ≠ [] ∧ goHasPrefix st[m].1 p = true
    · have hstep : nsClearStep p st m = st.take m ++ st.drop (m + 1) := by
        rw [nsClearStep, hkeyn]
        dsimp only
        rw [if_pos hrem, realRemoveItem, eraseP_key_at st m hm hnd]
      rw [hstep]
      have hlen1 : (st.take m).length = m := by
        rw [List.length_take]
        omega
      have hsub : (st.take m ++ st.drop (m + 1)).Sublist st := by
        conv_rhs => rw [← List.take_append_drop m st, hdrop]
        exact List.Sublist.append (List.Sublist.refl _)
          (List.sublist_cons_self _ _)
      have hnd2 : ((st.take m ++ st.drop (m + 1)).map Prod.fst).Nodup :=
        List.Nodup.sublist (List.Sublist.map Prod.fst hsub) hnd
      have hlen2 : m ≤ (st.take m ++ st.drop (m + 1)).length := by
        rw [List.length_append, hlen1]
        omega
      rw [ih _ hlen2 hnd2]
      rw [List.take_left' hlen1, List.drop_left' hlen1]
      rw [htake, List.filter_append]
      have hfone : List.filter (fun kv => !(decide (kv.1 ≠ []) && goHasPrefix kv.1 p))
          [st[m]] = [] := by
        rw [List.filter_cons, if_neg (by simp [hrem.1, hrem.2])]
        rfl
      rw [hfone, List.append_nil]
    · have hstep : nsClearStep p st m = st := by
        rw [nsClearStep, hkeyn]
        dsimp only
        rw [if_neg hrem]
      rw [hstep, ih _ (by omega) hnd]
      rw [htake, List.filter_append]
      have hkeep : (!(decide (st[m].1 ≠ []) && goHasPrefix st[m].1 p)) = true := by
        by_cases h1 : st[m].1 = []
        · simp [h1]
        · have h2 : goHasPrefix st[m].1 p = false := by
            by_contra hcon
            rw [Bool.not_eq_false] at hcon
            exact hrem ⟨h1, hcon⟩
          simp [h2]
      have hfone : List.filter (fun kv => !(decide (kv.1 ≠ []) && goHasPrefix kv.1 p))
          [st[m]] = [st[m]] := by
        rw [List.filter_cons, if_pos hkeep]
        rfl
      rw [hfone, hdrop]
      simp

theorem nsKeyAux_spec (p : GoStr) (hp : p ≠ []) :
    ∀ (keys : List GoStr) (idx : Nat),
    nsKeyAux p keys idx =
      ((keys.filter (fun k => goHasPrefix k p)).get? idx).map
        (fun k => k.drop p.length) := by
  intro keys
  induction keys with
  | nil =>
    intro idx
    rfl
  | cons k rest ih =>
    intro idx
    by_cases hk : k ≠ [] ∧ goHasPrefix k p = true
    · have hf : List.filter (fun x => goHasPrefix x p) (k :: rest) =
          k :: List.filter (fun x => goHasPrefix x p) rest := by
        rw [List.filter_cons, if_pos hk.2]
      rw [nsKeyAux.eq_def]
      dsimp only
      rw [if_pos hk, hf]
      by_cases hidx : idx = 0
      · subst hidx
        rw [if_pos rfl]
        rfl
      · obtain ⟨j, rfl⟩ : ∃ j, idx = j + 1 := ⟨idx - 1, by omega⟩
        rw [if_neg hidx, ih (j + 1 - 1)]
        rfl
    · have hpref : goHasPrefix k p = false := by
        rcases Decidable.not_and_iff_or_not.1 hk with h | h
        · simp only [ne_eq, Decidable.not_not] at h
          subst h
          by_contra hcon
          rw [Bool.not_eq_false] at hcon
          exact hp (goHasPrefix_nil hcon)
        · simpa using h
      have hf : List.filter (fun x => goHasPrefix x p) (k :: rest) =
          List.filter (fun x => goHasPrefix x p) rest := by
        rw [List.filter_cons, if_neg (by simp [hpref])]
      rw [nsKeyAux.eq_def]
      dsimp only
      rw [if_neg hk, hf]
      exact ih idx

theorem nsLengthAux_spec (p : GoStr) :
    ∀ keys : List GoStr,
    nsLengthAux p keys = (keys.filter (fun k => goHasPrefix k p)).length := by
  intro keys
  induction keys with
  | nil => rfl
  | cons k rest ih =>
    rw [nsLengthAux]
    by_cases hk : goHasPrefix k p
    · rw [if_pos hk, List.filter_cons, if_pos (by simp [hk]), ih]
      simp [Nat.add_comm]
    · rw [if_neg hk, List.filter_cons, if_neg (by simp [hk]), ih]
      simp

theorem storagePrefix_ne_nil (origin : GoStr) : storagePrefix origin ≠ [] := by
  rw [storagePrefix]
  simp [gs]

/-- C9: the namespaced storage wrapper stores `setItem k v` under the
prefixed key `__ix_<origin>_ + k` in the backing store; `getItem` reads and
`removeItem` removes exactly that key; `clear` removes exactly the entries
whose key carries the prefix; and `length`/`key(i)` enumerate only the
prefixed keys, `key(i)` returning them with the prefix stripped. -/
theorem C9_storage_namespacing (origin : GoStr) (st : JSStorage) (k v : GoStr)
    (i : Nat) (hnd : (st.map Prod.fst).Nodup) :
    realGetItem (nsSetItem origin st k v) (storagePrefix origin ++ k) = some v ∧
    nsGetItem origin st k = realGetItem st (storagePrefix origin ++ k) ∧
    nsRemoveItem origin st k = realRemoveItem st (storagePrefix origin ++ k) ∧
    nsClear origin st = st.filter (fun kv => !goHasPrefix kv.1 (storagePrefix origin)) ∧
    nsLength origin st =
      ((st.map Prod.fst).filter (fun key => goHasPrefix key (storagePrefix origin))).length ∧
    nsKey origin st i =
      (((st.map Prod.fst).filter
          (fun key => goHasPrefix key (storagePrefix origin))).get? i).map
        (fun key => key.drop (storagePrefix origin).length) := by
  refine ⟨realGetItem_realSetItem _ _ _, rfl, rfl, ?_, nsLengthAux_spec _ _,
    nsKeyAux_spec _ (storagePrefix_ne_nil origin) _ _⟩
  rw [nsClear, realLength, nsClearFrom_spec _ _ _ (le_refl _) hnd,
    List.take_length, List.drop_length, List.append_nil]
  apply List.filter_congr
  intro kv _
  by_cases hpref : goHasPrefix kv.1 (storagePrefix origin)
  · have hne : kv.1 ≠ [] := by
      intro he
      rw [he] at hpref
      exact storagePrefix_ne_nil origin (goHasPrefix_nil hpref)
    simp [hpref, hne]
  · simp [hpref]

theorem C9_storage_namespacing_witness :
    realGetItem
        (nsSetItem (gs "https://example.com")
          [(gs "__ix_https://example.com_a", gs "1"), (gs "other", gs "w")]
          (gs "k") (gs "v"))
        (storagePrefix (gs "https://example.com") ++ gs "k") = some (gs "v") ∧
    nsGetItem (gs "https://example.com")
        [(gs "__ix_https://example.com_a", gs "1"), (gs "other", gs "w")] (gs "k") =
      realGetItem [(gs "__ix_https://example.com_a", gs "1"), (gs "other", gs "w")]
        (storagePrefix (gs "https://example.com") ++ gs "k") ∧
    nsRemoveItem (gs "https://example.com")
        [(gs "__ix_https://example.com_a", gs "1"), (gs "other", gs "w")] (gs "k") =
      realRemoveItem [(gs "__ix_https://example.com_a", gs "1"), (gs "other", gs "w")]
        (storagePrefix (gs "https://example.com") ++ gs "k") ∧
    nsClear (gs "https://example.com")
        [(gs "__ix_https://example.com_a", gs "1"), (gs "other", gs "w")] =
      ([(gs "__ix_https://example.com_a", gs "1"), (gs "other", gs "w")] : JSStorage).filter
        (fun kv => !goHasPrefix kv.1 (storagePrefix (gs "https://example.com"))) ∧
    nsLength (gs "https://example.com")
        [(gs "__ix_https://example.com_a", gs "1"), (gs "other", gs "w")] =
      ((([(gs "__ix_https://example.com_a", gs "1"), (gs "other", gs "w")] :
          JSStorage).map Prod.fst).filter
        (fun key => goHasPrefix key (storagePrefix (gs "https://example.com")))).length ∧
    nsKey (gs "https://example.com")
        [(gs "__ix_https://example.com_a", gs "1"), (gs "other", gs "w")] 0 =
      (((([(gs "__ix_https://example.com_a", gs "1"), (gs "other", gs "w")] :
            JSStorage).map Prod.fst).filter
          (fun key => goHasPrefix key (storagePrefix (gs "https://example.com")))).get? 0).map
        (fun key => key.drop (storagePrefix (gs "https://example.com")).length) :=
  C9_storage_namespacing (gs "https://example.com")
    [(gs "__ix_https://example.com_a", gs "1"), (gs "other", gs "w")]
    (gs "k") (gs "v") 0 (by decide)

end Internex
